import Mathlib

/-!
Shallow embedding of the cryptoquant data pipeline (Binance bulk-data
downloader and ClickHouse indexer) and proofs checking its specification
against the code.

Strings from the Rust source are modelled as `List Char`; machine integers
(`u32`, `u64`, `u16`) as `Nat` with explicit bounds or `% 2^w` where the code
can wrap; fallible Rust functions (`Result`) as `Except` values; `todo!` and
other panics as a dedicated outcome distinct from a returned error.
-/

/-- Strings are modelled as lists of characters. -/
abbrev Str := List Char

namespace CryptoQuant

/-! ## String helpers mirroring the Rust standard library -/

/-- Rust `str::contains(pat)` for a string pattern: `pat` occurs as a
contiguous substring.  The empty pattern matches everywhere, as in Rust. -/
def containsSub (pat : Str) : Str → Bool
  | [] => pat.isEmpty
  | c :: rest => pat.isPrefixOf (c :: rest) || containsSub pat rest

/-- ASCII lower-casing of one character, as in Rust `u8::to_ascii_lowercase`. -/
def asciiLowerChar (c : Char) : Char :=
  if 'A' ≤ c ∧ c ≤ 'Z' then Char.ofNat (c.toNat + 32) else c

/-- ASCII upper-casing of one character, as in Rust `u8::to_ascii_uppercase`. -/
def asciiUpperChar (c : Char) : Char :=
  if 'a' ≤ c ∧ c ≤ 'z' then Char.ofNat (c.toNat - 32) else c

/-- Rust `str::to_ascii_uppercase` (also standing in for `str::to_uppercase`,
which coincides with it on the ASCII names used by this program). -/
def toAsciiUpper (s : Str) : Str := s.map asciiUpperChar

/-- Rust `str::eq_ignore_ascii_case`. -/
def eqIgnoreAsciiCase (a b : Str) : Bool :=
  a.map asciiLowerChar == b.map asciiLowerChar

/-! ## C1 — `Downloader::get_pairs` filter semantics (downloader.rs:96-131) -/

/-- The three optional pair-name filter sets held by `Downloader`
(`pair_filter_excluded`, `pair_filter_starts_with`, `pair_filter_ends_with`). -/
structure PairFilters where
  excluded : Option (List Str)
  starts_with : Option (List Str)
  ends_with : Option (List Str)

/-- The `excluded` test of the retain closure: some entry of the `excluded`
filter is a substring of the name (`p.name.contains(f)`). -/
def excludedMatches (f : PairFilters) (name : Str) : Bool :=
  match f.excluded with
  | some fs => fs.any (fun p => containsSub p name)
  | none => false

/-- The `starts_with` test of the retain closure
(`p.name.starts_with(f)` over the filter entries). -/
def startsWithMatches (f : PairFilters) (name : Str) : Bool :=
  match f.starts_with with
  | some fs => fs.any (fun p => p.isPrefixOf name)
  | none => false

/-- The `ends_with` test of the retain closure
(`p.name.ends_with(f)` over the filter entries). -/
def endsWithMatches (f : PairFilters) (name : Str) : Bool :=
  match f.ends_with with
  | some fs => fs.any (fun p => p.isSuffixOf name)
  | none => false

/-- The retain closure of `Downloader::get_pairs` (downloader.rs:106-126),
early returns rendered as nested `if`s.  Note the final branch is `false`:
a pair matching no clause is dropped. -/
def retainPair (f : PairFilters) (name : Str) : Bool :=
  if excludedMatches f name then false
  else if startsWithMatches f name then true
  else if endsWithMatches f name then true
  else false

/-- The acceptance predicate as claim C1 states it (spec §4.5): identical to
`retainPair` except that the default row of the decision table accepts
whenever no positive filter was supplied. -/
def retainPairClaimed (f : PairFilters) (name : Str) : Bool :=
  if excludedMatches f name then false
  else if startsWithMatches f name then true
  else if endsWithMatches f name then true
  else f.starts_with.isNone && f.ends_with.isNone

/-! ## C2 — `File::new` path derivation (file.rs:86-101) -/

/-- Rust `str::trim_end_matches('/')`: removes every trailing `'/'`. -/
def trimEndSlashes (s : Str) : Str :=
  (s.reverse.dropWhile (fun c => c = '/')).reverse

/-- Fuel-driven worker for `replaceAll`.  With fuel at least the length of
the string it scans left to right; on a match of the (non-empty) pattern it
emits the replacement and resumes after the matched occurrence, exactly as
Rust `str::replace` does for its non-overlapping matches. -/
def replaceAllGo (pat rep : Str) : Nat → Str → Str
  | _, [] => []
  | 0, s => s
  | fuel + 1, c :: rest =>
    if ¬ pat.isEmpty ∧ pat.isPrefixOf (c :: rest) then
      rep ++ replaceAllGo pat rep fuel ((c :: rest).drop pat.length)
    else
      c :: replaceAllGo pat rep fuel rest

/-- Rust `str::replace(pat, rep)` for a non-empty pattern: replaces every
non-overlapping occurrence, left to right.  (The program only ever calls it
with the pattern `"data/"`.) -/
def replaceAll (pat rep s : Str) : Str :=
  replaceAllGo pat rep s.length s

/-- Rust `Path::join` for the shapes arising here: the left side has no
trailing slash (it was trimmed) and the right side is relative, so joining
inserts a single separator; an empty left side yields the right side. -/
def pathJoin (a b : Str) : Str :=
  if a.isEmpty then b else a ++ '/' :: b

/-- The path derivation of `File::new` (file.rs:86-101): trim trailing
slashes off the configured data directory, replace `"data/"` with
`"binance/"` in the object key, join, then expand environment variables and
`~`.  Expansion (`shellexpand::full`) is abstracted as a function argument
and assumed to succeed; it is the identity on paths free of `$` and `~`. -/
def fileNewPath (expand : Str → Str) (dataDir objectKey : Str) : Str :=
  expand (pathJoin (trimEndSlashes dataDir)
    (replaceAll "data/".toList "binance/".toList objectKey))

/-- Dropping `pat.length` elements strictly shrinks a non-empty list when
`pat` is non-empty. -/
theorem lengthDropLtOfPrefix {pat : Str} {c : Char} {rest : Str}
    (hne : ¬ pat.isEmpty) :
    ((c :: rest).drop pat.length).length < (c :: rest).length := by
  have hpos : 0 < pat.length := by
    cases pat with
    | nil => simp [List.isEmpty] at hne
    | cons a l => simp
  have h1 : ((c :: rest).drop pat.length).length = (c :: rest).length - pat.length :=
    List.length_drop pat.length (c :: rest)
  have h2 : (c :: rest).length = rest.length + 1 := List.length_cons c rest
  omega

/-- With enough fuel, the worker's result does not depend on the fuel. -/
theorem replaceAllGoFuelIrrel (pat rep : Str) :
    ∀ (n : Nat) (s : Str), s.length ≤ n → ∀ fuel fuel' : Nat,
      s.length ≤ fuel → s.length ≤ fuel' →
      replaceAllGo pat rep fuel s = replaceAllGo pat rep fuel' s := by
  intro n
  induction n with
  | zero =>
    intro s hs fuel fuel' _ _
    have : s = [] := List.eq_nil_of_length_eq_zero (Nat.le_zero.mp hs)
    subst this
    cases fuel <;> cases fuel' <;> rfl
  | succ n ih =>
    intro s hs fuel fuel' hf hf'
    cases s with
    | nil => cases fuel <;> cases fuel' <;> rfl
    | cons c rest =>
      cases fuel with
      | zero => simp only [List.length_cons] at hf; omega
      | succ f =>
        cases fuel' with
        | zero => simp only [List.length_cons] at hf'; omega
        | succ f' =>
          simp only [replaceAllGo]
          by_cases hmat : ¬ pat.isEmpty ∧ pat.isPrefixOf (c :: rest)
          · simp only [if_pos hmat]
            have hlt := @lengthDropLtOfPrefix pat c rest hmat.1
            simp only [List.length_cons] at hlt hs hf hf'
            congr 1
            exact ih _ (by omega) f f' (by omega) (by omega)
          · simp only [if_neg hmat]
            simp only [List.length_cons] at hs hf hf'
            congr 1
            exact ih rest (by omega) f f' (by omega) (by omega)

/-- When the pattern has no occurrence in the string, the worker leaves the
string unchanged. -/
theorem replaceAllGoNoOcc (pat rep : Str) :
    ∀ (fuel : Nat) (s : Str), s.length ≤ fuel →
      containsSub pat s = false → replaceAllGo pat rep fuel s = s := by
  intro fuel
  induction fuel with
  | zero =>
    intro s hs _
    have : s = [] := List.eq_nil_of_length_eq_zero (Nat.le_zero.mp hs)
    subst this; rfl
  | succ f ih =>
    intro s hs hno
    cases s with
    | nil => rfl
    | cons c rest =>
      simp only [containsSub, Bool.or_eq_false_iff] at hno
      simp only [replaceAllGo]
      rw [if_neg (by intro h; exact absurd hno.1 (by simp [h.2]))]
      simp only [List.length_cons] at hs
      rw [ih rest (by omega) hno.2]

/-- `replaceAll` on a string that has no occurrence of the pattern is the
identity. -/
theorem replaceAllNoOcc (pat rep s : Str) (hno : containsSub pat s = false) :
    replaceAll pat rep s = s :=
  replaceAllGoNoOcc pat rep s.length s (Nat.le_refl _) hno

/-- Every list is (in the Boolean sense) an initial segment of itself
followed by anything. -/
theorem isPrefixOfAppendSelf : ∀ (a s : Str), a.isPrefixOf (a ++ s) = true := by
  intro a
  induction a with
  | nil => intro s; simp [List.isPrefixOf]
  | cons c cs ih =>
    intro s
    simp [List.isPrefixOf, ih]

/-- `replaceAll` replaces a leading occurrence of the pattern and continues
after it. -/
theorem replaceAllAppend (pat rep s : Str) (hne : ¬ pat.isEmpty) :
    replaceAll pat rep (pat ++ s) = rep ++ replaceAll pat rep s := by
  cases pat with
  | nil => simp [List.isEmpty] at hne
  | cons p ps =>
    have hpre : (p :: ps).isPrefixOf (p :: (ps ++ s)) = true :=
      isPrefixOfAppendSelf (p :: ps) s
    have hdrop : ((p :: (ps ++ s)) : Str).drop (p :: ps).length = s :=
      List.drop_left (p :: ps) s
    have hgo :
        replaceAllGo (p :: ps) rep (ps.length + s.length + 1) (p :: (ps ++ s)) =
          rep ++ replaceAllGo (p :: ps) rep (ps.length + s.length) s := by
      simp only [replaceAllGo]
      rw [if_pos ⟨by simp [List.isEmpty], hpre⟩, hdrop]
    show replaceAllGo (p :: ps) rep ((p :: ps) ++ s).length ((p :: ps) ++ s) =
      rep ++ replaceAllGo (p :: ps) rep s.length s
    have hlen : ((p :: ps) ++ s).length = ps.length + s.length + 1 := by
      simp only [List.length_append, List.length_cons]; omega
    rw [hlen]
    exact hgo.trans (congrArg (fun t => rep ++ t)
      (replaceAllGoFuelIrrel (p :: ps) rep (ps.length + s.length) s (by omega)
        (ps.length + s.length) s.length (by omega) (Nat.le_refl _)))

/-- Outcome of a Rust call: a returned `Ok`, a returned `Err`, or a panic
(`todo!` expands to a panic, which is not a returned error). -/
inductive RustResult (α : Type) where
  | ok : α → RustResult α
  | err : Str → RustResult α
  | panicked : Str → RustResult α
deriving DecidableEq

/-- Asset variants (data_types.rs). -/
inductive Asset where
  | futures
  | option'
  | spot
deriving DecidableEq

/-- Cadence variants (data_types.rs). -/
inductive Cadence where
  | daily
  | monthly
deriving DecidableEq

/-- DataType variants (data_types.rs). -/
inductive DataType where
  | aggTrades
  | kLines
  | trades
deriving DecidableEq

/-- The `Downloader` state relevant to construction and pair filtering.
The S3 `Bucket` handle is not modelled; its construction is abstracted as
always succeeding (it only parses a constant region string and anonymous
credentials). -/
structure Downloader where
  name : Str
  asset : Asset
  cadence : Cadence
  data_type : DataType
  pair_filter_excluded : Option (List Str)
  pair_filter_starts_with : Option (List Str)
  pair_filter_ends_with : Option (List Str)
deriving DecidableEq

/-- `Downloader::new` (downloader.rs:56-76): matches on the asset first;
`Futures | Option` hit `todo!(...)`, i.e. panic; `Spot` proceeds.  The
data-type argument is never inspected. -/
def Downloader.new (name : Str) (asset : Asset) (cadence : Cadence)
    (data_type : DataType) : RustResult Downloader :=
  match asset with
  | .futures | .option' =>
      .panicked "not yet implemented: Futures | Option not implemented.".toList
  | .spot =>
      .ok { name := name, asset := asset, cadence := cadence,
            data_type := data_type,
            pair_filter_excluded := none,
            pair_filter_starts_with := none,
            pair_filter_ends_with := none }

/-! ## C5 — `TradesRow::new` field mapping (trades.rs:38-50) -/

/-- An `f32` value.  IEEE-754 bit-level semantics is not modelled: the
program never computes with these values, it only copies them from the CSV
into the database row, so a value is identified by its source literal. -/
structure F32 where
  lit : Str
deriving DecidableEq

/-- A parsed CSV trade row (file.rs `Row`, fields in source order). -/
structure FileRow where
  id : Nat
  price : F32
  qty : F32
  quote_qty : F32
  time : Nat
  is_buyer_maker : Bool
  is_best_match : Bool
deriving DecidableEq

/-- A database trade row (trades.rs `TradesRow`, fields in source order). -/
structure TradesRow where
  dt : Nat
  pair : Str
  side : Bool
  price : F32
  qty : F32
  notional : F32
  id : Nat
deriving DecidableEq

/-- `TradesRow::new` (trades.rs:38-50). -/
def TradesRow.new (pair : Str) (row : FileRow) : TradesRow :=
  { dt := row.time
    pair := pair
    side := !row.is_buyer_maker
    price := row.price
    qty := row.qty
    notional := row.quote_qty
    id := row.id }

/-! ## C7 — CSV row deserialization (file.rs:29-75) -/

/-- `bool_from_str` (file.rs:29-41): accepts exactly the literals `true`,
`True`, `false`, `False`; anything else is an invalid-value error. -/
def boolFromStr (s : Str) : Except Str Bool :=
  if s = "true".toList ∨ s = "True".toList then .ok true
  else if s = "false".toList ∨ s = "False".toList then .ok false
  else .error "invalid value".toList

/-- ASCII decimal digit test. -/
def isAsciiDigit (c : Char) : Bool := '0' ≤ c ∧ c ≤ '9'

/-- Numeric value of a string of ASCII digits. -/
def digitsToNat (s : Str) : Nat :=
  s.foldl (fun n c => 10 * n + (c.toNat - '0'.toNat)) 0

/-- Rust `uN::from_str`: an optional leading `+`, then one or more ASCII
digits, with the value bounded by the type's maximum. -/
def parseUInt (maxVal : Nat) (s : Str) : Except Str Nat :=
  let digits := match s with
    | '+' :: rest => rest
    | _ => s
  if ¬ digits.isEmpty ∧ digits.all isAsciiDigit then
    if digitsToNat digits ≤ maxVal then .ok (digitsToNat digits)
    else .error "number too large".toList
  else .error "invalid digit".toList

/-- `u32::from_str`. -/
def parseU32 (s : Str) : Except Str Nat := parseUInt (2 ^ 32 - 1) s

/-- `u64::from_str`. -/
def parseU64 (s : Str) : Except Str Nat := parseUInt (2 ^ 64 - 1) s

/-- Mantissa of a Rust float literal: digits with an optional point, at
least one digit overall (`1`, `1.`, `1.5`, `.5`; not `.` or empty). -/
def validMantissa (s : Str) : Bool :=
  let intPart := s.takeWhile isAsciiDigit
  match s.dropWhile isAsciiDigit with
  | [] => ¬ intPart.isEmpty
  | '.' :: frac => frac.all isAsciiDigit ∧ (¬ intPart.isEmpty ∨ ¬ frac.isEmpty)
  | _ => false

/-- Exponent of a Rust float literal after `e`/`E`: optional sign, then one
or more digits. -/
def validExpPart (s : Str) : Bool :=
  let digits := match s with
    | c :: rest => if c = '+' ∨ c = '-' then rest else s
    | [] => s
  ¬ digits.isEmpty ∧ digits.all isAsciiDigit

/-- Rust `f32::from_str` accepted syntax: optional sign, then `inf`,
`infinity` or `nan` (case-insensitive) or a mantissa with an optional
exponent. -/
def validFloatLit (s : Str) : Bool :=
  let body := match s with
    | c :: rest => if c = '+' ∨ c = '-' then rest else s
    | [] => s
  let lower := body.map asciiLowerChar
  if lower = "inf".toList ∨ lower = "infinity".toList ∨ lower = "nan".toList
  then true
  else
    match body.span (fun c => ¬ (c = 'e' ∨ c = 'E')) with
    | (mant, []) => validMantissa mant
    | (mant, _ :: expPart) => validMantissa mant && validExpPart expPart

/-- `f32::from_str`, at the level the program observes it: a well-formed
literal parses (the value is identified by its text, cf. `F32`), anything
else is an error. -/
def parseF32 (s : Str) : Except Str F32 :=
  if validFloatLit s then .ok ⟨s⟩ else .error "invalid float literal".toList

/-- Deserialization of one headerless CSV record into `Row` (file.rs:43-75):
fields are taken by position; `is_best_match` carries `#[serde(skip)]`, so
its column is never read and the field defaults to `false`; trailing extra
fields of the record are ignored by the csv deserializer; a record with too
few fields is an error. -/
def parseRow (fields : List Str) : Except Str FileRow :=
  match fields with
  | fid :: fprice :: fqty :: fqq :: ftime :: fibm :: _ =>
    match parseU32 fid with
    | .error e => .error e
    | .ok id =>
      match parseF32 fprice with
      | .error e => .error e
      | .ok price =>
        match parseF32 fqty with
        | .error e => .error e
        | .ok qty =>
          match parseF32 fqq with
          | .error e => .error e
          | .ok quote_qty =>
            match parseU64 ftime with
            | .error e => .error e
            | .ok time =>
              match boolFromStr fibm with
              | .error e => .error e
              | .ok is_buyer_maker =>
                .ok { id := id, price := price, qty := qty,
                      quote_qty := quote_qty, time := time,
                      is_buyer_maker := is_buyer_maker,
                      is_best_match := false }
  | _ => .error "record too short".toList

/-- `Except.isOk` holds exactly on `ok` values. -/
theorem exceptIsOkIff {α : Type} (e : Except Str α) :
    e.isOk = true ↔ ∃ a, e = .ok a := by
  cases e <;> simp [Except.isOk, Except.toBool]

/-- Full case analysis of `bool_from_str`. -/
theorem boolFromStrSpec (s : Str) :
    (boolFromStr s = .error "invalid value".toList ∧
      s ≠ "true".toList ∧ s ≠ "True".toList ∧
      s ≠ "false".toList ∧ s ≠ "False".toList) ∨
    (boolFromStr s = .ok true ∧ (s = "true".toList ∨ s = "True".toList)) ∨
    (boolFromStr s = .ok false ∧ (s = "false".toList ∨ s = "False".toList)) := by
  unfold boolFromStr
  by_cases h1 : s = "true".toList ∨ s = "True".toList
  · exact Or.inr (Or.inl ⟨by rw [if_pos h1], h1⟩)
  · by_cases h2 : s = "false".toList ∨ s = "False".toList
    · exact Or.inr (Or.inr ⟨by rw [if_neg h1, if_pos h2], h2⟩)
    · refine Or.inl ⟨by rw [if_neg h1, if_neg h2], ?_, ?_, ?_, ?_⟩ <;> tauto

/-! ## C4 — `FileCollection::from_objects` (file_collection.rs:30-61) -/

/-- A bucket listing entry.  Of the S3 `Object` record only the `key` is
read by the pairing logic, so only it is modelled. -/
structure S3Object where
  key : Str
deriving DecidableEq

/-- The `File` struct (file.rs:77-101) as produced by `File::new`: the three
keys plus the path derived per `fileNewPath`.  `File::new` cannot fail in
the model because expansion is abstracted as a total function. -/
structure BFile where
  pair : Str
  object_key : Str
  checksum_key : Str
  path : Str
deriving DecidableEq

/-- `File::new` (file.rs:86-101). -/
def File.new (expand : Str → Str) (dataDir : Str)
    (pair object_key checksum_key : Str) : BFile :=
  { pair := pair, object_key := object_key, checksum_key := checksum_key,
    path := fileNewPath expand dataDir object_key }

/-- A grouping entry: `(Option<Object>, Option<Object>)`, archive slot
first, checksum slot second. -/
abbrev Group := Option S3Object × Option S3Object

/-- `map.entry(k).or_default()` followed by a mutation `f` of the entry:
update the association-list entry for `k`, inserting a default
`(none, none)` group first when absent.  This models the `HashMap` except
for iteration order, which the `HashMap` leaves unspecified and on which no
claim depends. -/
def updateGroup (m : List (Str × Group)) (k : Str) (f : Group → Group) :
    List (Str × Group) :=
  match m with
  | [] => [(k, f (none, none))]
  | (k', v) :: rest =>
    if k' = k then (k', f v) :: rest else (k', v) :: updateGroup rest k f

/-- Association-list lookup. -/
def lookupGroup (m : List (Str × Group)) (k : Str) : Option Group :=
  (m.find? (fun e => e.1 = k)).map (fun e => e.2)

/-- The key with the checksum suffix stripped when present
(file_collection.rs:35-39). -/
def stripKey (suffix key : Str) : Str :=
  if suffix.isSuffixOf key then key.take (key.length - suffix.length)
  else key

/-- One step of the grouping fold of `from_objects`
(file_collection.rs:32-49). -/
def groupStep (suffix : Str) (m : List (Str × Group)) (obj : S3Object) :
    List (Str × Group) :=
  if suffix.isSuffixOf obj.key then
    updateGroup m (stripKey suffix obj.key) (fun v => (v.1, some obj))
  else
    updateGroup m (stripKey suffix obj.key) (fun v => (some obj, v.2))

/-- The grouping fold of `from_objects` (file_collection.rs:32-49). -/
def groupObjects (objects : List S3Object) (suffix : Str) :
    List (Str × Group) :=
  objects.foldl (groupStep suffix) []

/-- Rust `collect::<Result<Vec<_>, _>>()`: the first error aborts the
collection. -/
def collectResults {α : Type} : List (Except Str α) → Except Str (List α)
  | [] => .ok []
  | x :: rest =>
    match x with
    | .error e => .error e
    | .ok a =>
      match collectResults rest with
      | .error e => .error e
      | .ok tl => .ok (a :: tl)

/-- `FileCollection::from_objects` (file_collection.rs:30-61): group the
objects, then turn each complete group into a `File` and fail on any group
missing either member. -/
def fromObjects (expand : Str → Str) (dataDir : Str) (pair : Str)
    (objects : List S3Object) (suffix : Str) : Except Str (List BFile) :=
  collectResults ((groupObjects objects suffix).map (fun g =>
    match g.2 with
    | (some obj, some chk) =>
        .ok (File.new expand dataDir pair obj.key chk.key)
    | _ => .error "Missing an object or a checksum".toList))

/-- An archive (non-checksum) object of the list strips to key `k`. -/
def archIn (suffix : Str) (objects : List S3Object) (k : Str) : Prop :=
  ∃ o ∈ objects, suffix.isSuffixOf o.key = false ∧ stripKey suffix o.key = k

/-- A checksum object of the list strips to key `k`. -/
def chkIn (suffix : Str) (objects : List S3Object) (k : Str) : Prop :=
  ∃ o ∈ objects, suffix.isSuffixOf o.key = true ∧ stripKey suffix o.key = k

/-! ### Association-list facts -/

theorem lookupGroupUpdateSame (m : List (Str × Group)) (k : Str)
    (f : Group → Group) :
    lookupGroup (updateGroup m k f) k =
      some (f ((lookupGroup m k).getD (none, none))) := by
  induction m with
  | nil => simp [updateGroup, lookupGroup, List.find?]
  | cons e rest ih =>
    obtain ⟨k', v⟩ := e
    by_cases hk : k' = k
    · subst hk
      simp [updateGroup, lookupGroup, List.find?]
    · simp only [updateGroup, if_neg hk]
      simpa [lookupGroup, List.find?, hk] using ih

theorem lookupGroupUpdateOther (m : List (Str × Group)) (k k' : Str)
    (f : Group → Group) (hk : k' ≠ k) :
    lookupGroup (updateGroup m k f) k' = lookupGroup m k' := by
  induction m with
  | nil => simp [updateGroup, lookupGroup, List.find?, Ne.symm hk]
  | cons e rest ih =>
    obtain ⟨k0, v⟩ := e
    by_cases h0 : k0 = k
    · subst h0
      simp [updateGroup, lookupGroup, List.find?, Ne.symm hk]
    · simp only [updateGroup, if_neg h0]
      by_cases h1 : k0 = k'
      · subst h1
        simp [lookupGroup, List.find?]
      · simpa [lookupGroup, List.find?, h0, h1] using ih

theorem updateGroupKeys (m : List (Str × Group)) (k : Str)
    (f : Group → Group) :
    (updateGroup m k f).map Prod.fst =
      if k ∈ m.map Prod.fst then m.map Prod.fst
      else m.map Prod.fst ++ [k] := by
  induction m with
  | nil => simp [updateGroup]
  | cons e rest ih =>
    obtain ⟨k0, v⟩ := e
    by_cases h0 : k0 = k
    · subst h0
      simp [updateGroup]
    · simp only [updateGroup, if_neg h0, List.map_cons]
      rw [ih]
      by_cases hmem : k ∈ rest.map Prod.fst
      · simp [hmem, Ne.symm h0]
      · simp [hmem, Ne.symm h0]

theorem updateGroupKeysNodup (m : List (Str × Group)) (k : Str)
    (f : Group → Group) (h : (m.map Prod.fst).Nodup) :
    ((updateGroup m k f).map Prod.fst).Nodup := by
  rw [updateGroupKeys]
  by_cases hmem : k ∈ m.map Prod.fst
  · simpa [hmem] using h
  · simp only [if_neg hmem]
    simpa [List.nodup_append, hmem] using h

theorem lookupGroupIsSomeIff (m : List (Str × Group)) (k : Str) :
    (lookupGroup m k).isSome = true ↔ k ∈ m.map Prod.fst := by
  induction m with
  | nil => simp [lookupGroup, List.find?]
  | cons e rest ih =>
    obtain ⟨k0, v⟩ := e
    by_cases h0 : k0 = k
    · subst h0
      simp [lookupGroup, List.find?]
    · simp [lookupGroup, List.find?, h0, Ne.symm h0]

theorem lookupGroupMem (m : List (Str × Group)) (k : Str) (g : Group)
    (h : lookupGroup m k = some g) : (k, g) ∈ m := by
  induction m with
  | nil => simp [lookupGroup, List.find?] at h
  | cons e rest ih =>
    obtain ⟨k0, v⟩ := e
    by_cases h0 : k0 = k
    · subst h0
      simp [lookupGroup, List.find?] at h
      simp [h]
    · simp [lookupGroup, List.find?, h0] at h
      exact List.mem_cons_of_mem _ (ih (by simpa [lookupGroup] using h))

/-! ### Strip-key facts -/

theorem stripKeyOfNotSuffix (suffix key : Str)
    (h : suffix.isSuffixOf key = false) : stripKey suffix key = key := by
  simp [stripKey, h]

theorem stripKeyAppend (suffix base : Str) :
    stripKey suffix (base ++ suffix) = base := by
  have hsuf : suffix.isSuffixOf (base ++ suffix) = true :=
    List.isSuffixOf_iff_suffix.mpr (List.suffix_append base suffix)
  simp only [stripKey, hsuf, if_true, List.length_append]
  have : base.length + suffix.length - suffix.length = base.length := by omega
  rw [this]
  exact List.take_left base suffix

theorem isSuffixOfAppend (suffix base : Str) :
    suffix.isSuffixOf (base ++ suffix) = true :=
  List.isSuffixOf_iff_suffix.mpr (List.suffix_append base suffix)

/-- The archive slot of group `k` is filled. -/
def archPresent (m : List (Str × Group)) (k : Str) : Prop :=
  ∃ g, lookupGroup m k = some g ∧ g.1.isSome = true

/-- The checksum slot of group `k` is filled. -/
def chkPresent (m : List (Str × Group)) (k : Str) : Prop :=
  ∃ g, lookupGroup m k = some g ∧ g.2.isSome = true

theorem getDFstIsSome (m : List (Str × Group)) (k : Str) :
    (((lookupGroup m k).getD (none, none)).1.isSome = true) ↔
      archPresent m k := by
  cases h : lookupGroup m k with
  | none => simp [archPresent, h]
  | some g => simp [archPresent, h]

theorem getDSndIsSome (m : List (Str × Group)) (k : Str) :
    (((lookupGroup m k).getD (none, none)).2.isSome = true) ↔
      chkPresent m k := by
  cases h : lookupGroup m k with
  | none => simp [chkPresent, h]
  | some g => simp [chkPresent, h]

theorem lookupOfMemNodup (m : List (Str × Group)) (k : Str) (g : Group)
    (hnd : (m.map Prod.fst).Nodup) (hmem : (k, g) ∈ m) :
    lookupGroup m k = some g := by
  induction m with
  | nil => cases hmem
  | cons e rest ih =>
    obtain ⟨k0, v⟩ := e
    simp only [List.map_cons, List.nodup_cons] at hnd
    rcases List.mem_cons.mp hmem with he | hmem'
    · cases he
      simp [lookupGroup, List.find?]
    · have hk0 : k0 ≠ k := by
        intro h
        subst h
        exact hnd.1 (List.mem_map.mpr ⟨(k0, g), hmem', rfl⟩)
      have hd : (decide (k0 = k)) = false := by simp [hk0]
      simp only [lookupGroup, List.find?, hd]
      exact ih hnd.2 hmem'

theorem archInCons (suffix : Str) (o : S3Object) (rest : List S3Object)
    (k : Str) :
    archIn suffix (o :: rest) k ↔
      (suffix.isSuffixOf o.key = false ∧ stripKey suffix o.key = k) ∨
        archIn suffix rest k := by
  simp only [archIn, List.mem_cons]
  constructor
  · rintro ⟨o', ho' | ho', hp⟩
    · subst ho'; exact Or.inl hp
    · exact Or.inr ⟨o', ho', hp⟩
  · rintro (hp | ⟨o', ho', hp⟩)
    · exact ⟨o, Or.inl rfl, hp⟩
    · exact ⟨o', Or.inr ho', hp⟩

theorem chkInCons (suffix : Str) (o : S3Object) (rest : List S3Object)
    (k : Str) :
    chkIn suffix (o :: rest) k ↔
      (suffix.isSuffixOf o.key = true ∧ stripKey suffix o.key = k) ∨
        chkIn suffix rest k := by
  simp only [chkIn, List.mem_cons]
  constructor
  · rintro ⟨o', ho' | ho', hp⟩
    · subst ho'; exact Or.inl hp
    · exact Or.inr ⟨o', ho', hp⟩
  · rintro (hp | ⟨o', ho', hp⟩)
    · exact ⟨o, Or.inl rfl, hp⟩
    · exact ⟨o', Or.inr ho', hp⟩

theorem groupStepNodup (suffix : Str) (m : List (Str × Group))
    (o : S3Object) (h : (m.map Prod.fst).Nodup) :
    (((groupStep suffix m o).map Prod.fst)).Nodup := by
  unfold groupStep
  by_cases hsuf : suffix.isSuffixOf o.key = true
  · rw [if_pos hsuf]; exact updateGroupKeysNodup _ _ _ h
  · rw [if_neg hsuf]; exact updateGroupKeysNodup _ _ _ h

theorem groupStepLookupIsSome (suffix : Str) (m : List (Str × Group))
    (o : S3Object) (k : Str) :
    (lookupGroup (groupStep suffix m o) k).isSome = true ↔
      ((lookupGroup m k).isSome = true ∨ stripKey suffix o.key = k) := by
  unfold groupStep
  by_cases hk : stripKey suffix o.key = k
  · subst hk
    by_cases hsuf : suffix.isSuffixOf o.key = true <;>
      simp [hsuf, lookupGroupUpdateSame]
  · have hne : k ≠ stripKey suffix o.key := fun h => hk h.symm
    by_cases hsuf : suffix.isSuffixOf o.key = true <;>
      simp [hsuf, lookupGroupUpdateOther _ _ _ _ hne, hk]

theorem groupStepArchPresent (suffix : Str) (m : List (Str × Group))
    (o : S3Object) (k : Str) :
    archPresent (groupStep suffix m o) k ↔
      (archPresent m k ∨
        (suffix.isSuffixOf o.key = false ∧ stripKey suffix o.key = k)) := by
  unfold groupStep
  by_cases hsuf : suffix.isSuffixOf o.key = true
  · rw [if_pos hsuf]
    by_cases hk : stripKey suffix o.key = k
    · subst hk
      rw [show archPresent
          (updateGroup m (stripKey suffix o.key) fun v => (v.1, some o))
          (stripKey suffix o.key) ↔
          (((lookupGroup m (stripKey suffix o.key)).getD
            (none, none)).1.isSome = true) from ?_]
      · rw [getDFstIsSome]
        simp [hsuf]
      · simp [archPresent, lookupGroupUpdateSame]
    · have hne : k ≠ stripKey suffix o.key := fun h => hk h.symm
      simp only [archPresent, lookupGroupUpdateOther _ _ _ _ hne]
      simp [hsuf, hk, archPresent]
  · rw [if_neg hsuf]
    have hsuf' : suffix.isSuffixOf o.key = false := Bool.eq_false_iff.mpr hsuf
    by_cases hk : stripKey suffix o.key = k
    · subst hk
      simp only [archPresent, lookupGroupUpdateSame]
      simp [hsuf']
    · have hne : k ≠ stripKey suffix o.key := fun h => hk h.symm
      simp only [archPresent, lookupGroupUpdateOther _ _ _ _ hne]
      simp [hk, archPresent]

theorem groupStepChkPresent (suffix : Str) (m : List (Str × Group))
    (o : S3Object) (k : Str) :
    chkPresent (groupStep suffix m o) k ↔
      (chkPresent m k ∨
        (suffix.isSuffixOf o.key = true ∧ stripKey suffix o.key = k)) := by
  unfold groupStep
  by_cases hsuf : suffix.isSuffixOf o.key = true
  · rw [if_pos hsuf]
    by_cases hk : stripKey suffix o.key = k
    · subst hk
      simp only [chkPresent, lookupGroupUpdateSame]
      simp [hsuf]
    · have hne : k ≠ stripKey suffix o.key := fun h => hk h.symm
      simp only [chkPresent, lookupGroupUpdateOther _ _ _ _ hne]
      simp [hk, chkPresent]
  · rw [if_neg hsuf]
    have hsuf' : suffix.isSuffixOf o.key = false := Bool.eq_false_iff.mpr hsuf
    by_cases hk : stripKey suffix o.key = k
    · subst hk
      rw [show chkPresent
          (updateGroup m (stripKey suffix o.key) fun v => (some o, v.2))
          (stripKey suffix o.key) ↔
          (((lookupGroup m (stripKey suffix o.key)).getD
            (none, none)).2.isSome = true) from ?_]
      · rw [getDSndIsSome]
        simp [hsuf']
      · simp [chkPresent, lookupGroupUpdateSame]
    · have hne : k ≠ stripKey suffix o.key := fun h => hk h.symm
      simp only [chkPresent, lookupGroupUpdateOther _ _ _ _ hne]
      simp [hsuf', hk, chkPresent]

theorem foldNodup (suffix : Str) :
    ∀ (objects : List S3Object) (m : List (Str × Group)),
      (m.map Prod.fst).Nodup →
      ((objects.foldl (groupStep suffix) m).map Prod.fst).Nodup := by
  intro objects
  induction objects with
  | nil => intro m h; exact h
  | cons o rest ih =>
    intro m h
    exact ih (groupStep suffix m o) (groupStepNodup suffix m o h)

theorem foldLookupIsSome (suffix : Str) :
    ∀ (objects : List S3Object) (m : List (Str × Group)) (k : Str),
      (lookupGroup (objects.foldl (groupStep suffix) m) k).isSome = true ↔
        ((lookupGroup m k).isSome = true ∨
          archIn suffix objects k ∨ chkIn suffix objects k) := by
  intro objects
  induction objects with
  | nil =>
    intro m k
    simp [archIn, chkIn]
  | cons o rest ih =>
    intro m k
    rw [List.foldl_cons, ih (groupStep suffix m o) k,
      groupStepLookupIsSome, archInCons, chkInCons]
    constructor
    · rintro ((h | h) | h | h)
      · exact Or.inl h
      · by_cases hsuf : suffix.isSuffixOf o.key = true
        · exact Or.inr (Or.inr (Or.inl ⟨hsuf, h⟩))
        · exact Or.inr (Or.inl (Or.inl ⟨Bool.eq_false_iff.mpr hsuf, h⟩))
      · exact Or.inr (Or.inl (Or.inr h))
      · exact Or.inr (Or.inr (Or.inr h))
    · rintro (h | (⟨hsf, hk⟩ | h) | (⟨hsf, hk⟩ | h))
      · exact Or.inl (Or.inl h)
      · exact Or.inl (Or.inr hk)
      · exact Or.inr (Or.inl h)
      · exact Or.inl (Or.inr hk)
      · exact Or.inr (Or.inr h)

theorem foldArchPresent (suffix : Str) :
    ∀ (objects : List S3Object) (m : List (Str × Group)) (k : Str),
      archPresent (objects.foldl (groupStep suffix) m) k ↔
        (archPresent m k ∨ archIn suffix objects k) := by
  intro objects
  induction objects with
  | nil =>
    intro m k
    simp [archIn]
  | cons o rest ih =>
    intro m k
    rw [List.foldl_cons, ih (groupStep suffix m o) k,
      groupStepArchPresent, archInCons]
    tauto

theorem foldChkPresent (suffix : Str) :
    ∀ (objects : List S3Object) (m : List (Str × Group)) (k : Str),
      chkPresent (objects.foldl (groupStep suffix) m) k ↔
        (chkPresent m k ∨ chkIn suffix objects k) := by
  intro objects
  induction objects with
  | nil =>
    intro m k
    simp [chkIn]
  | cons o rest ih =>
    intro m k
    rw [List.foldl_cons, ih (groupStep suffix m o) k,
      groupStepChkPresent, chkInCons]
    tauto

/-- Over the empty accumulator: a group key exists in the grouping exactly
when some object strips to it. -/
theorem groupObjectsLookupIsSome (objects : List S3Object) (suffix k : Str) :
    (lookupGroup (groupObjects objects suffix) k).isSome = true ↔
      (archIn suffix objects k ∨ chkIn suffix objects k) := by
  rw [groupObjects, foldLookupIsSome]
  simp [lookupGroup, List.find?]

/-- Over the empty accumulator: the archive slot of group `k` is filled
exactly when an archive object strips to `k`. -/
theorem groupObjectsArchPresent (objects : List S3Object) (suffix k : Str) :
    archPresent (groupObjects objects suffix) k ↔ archIn suffix objects k := by
  rw [groupObjects, foldArchPresent]
  simp [archPresent, lookupGroup, List.find?]

/-- Over the empty accumulator: the checksum slot of group `k` is filled
exactly when a checksum object strips to `k`. -/
theorem groupObjectsChkPresent (objects : List S3Object) (suffix k : Str) :
    chkPresent (groupObjects objects suffix) k ↔ chkIn suffix objects k := by
  rw [groupObjects, foldChkPresent]
  simp [chkPresent, lookupGroup, List.find?]

theorem groupObjectsNodup (objects : List S3Object) (suffix : Str) :
    ((groupObjects objects suffix).map Prod.fst).Nodup :=
  foldNodup suffix objects [] (by simp)

/-! ### `collectResults` facts -/

theorem collectResultsOk {α : Type} (l : List (Except Str α))
    (h : ∀ x ∈ l, ∃ a, x = .ok a) :
    ∃ tl, collectResults l = .ok tl ∧ tl.length = l.length := by
  induction l with
  | nil => exact ⟨[], rfl, rfl⟩
  | cons x rest ih =>
    obtain ⟨a, ha⟩ := h x (List.mem_cons_self x rest)
    obtain ⟨tl, htl, hlen⟩ := ih (fun y hy => h y (List.mem_cons_of_mem _ hy))
    subst ha
    refine ⟨a :: tl, ?_, by simp [hlen]⟩
    simp [collectResults, htl]

theorem collectResultsError {α : Type} (l : List (Except Str α))
    (h : ∃ x ∈ l, ∃ e, x = .error e) :
    ∃ e, collectResults l = .error e := by
  induction l with
  | nil => simp at h
  | cons x rest ih =>
    obtain ⟨y, hy, e, he⟩ := h
    rcases List.mem_cons.mp hy with rfl | hy'
    · subst he
      exact ⟨e, rfl⟩
    · cases x with
      | error e0 => exact ⟨e0, rfl⟩
      | ok a =>
        obtain ⟨e1, he1⟩ := ih ⟨y, hy', e, he⟩
        refine ⟨e1, ?_⟩
        simp [collectResults, he1]

/-! ## C3 / C10 — `File::download` (file.rs:103-192) -/

/-- An association-list store: paths (or object keys) to contents.  File
contents are modelled as strings of bytes-as-characters. -/
abbrev Store := List (Str × Str)

/-- Lookup in a store. -/
def Store.find (st : Store) (k : Str) : Option Str :=
  (st.find? (fun e => e.1 = k)).map (fun e => e.2)

/-- Removal from a store (`fs::remove_file`). -/
def Store.erase (st : Store) (k : Str) : Store :=
  st.filter (fun e => ! (e.1 = k : Bool))

/-- The world `File::download` acts on: the S3 bucket (read-only here) and
the local disk. -/
structure DlState where
  bucket : Store
  disk : Store
deriving DecidableEq

/-- Observable side effects of one `download` call: the number of bucket
GET requests (`get_object_to_file` and `read_object` each count one) and
the number of filesystem mutations (file creations and deletions). -/
structure DlEffects where
  gets : Nat
  fsWrites : Nat
deriving DecidableEq

/-- `File::download` (file.rs:117-143) together with `is_downloaded`
(103-115), `checksum_matches` (166-172) and `sha256_digest` (175-192).
The SHA-256 digest of a file's content is abstracted as the function
argument `shaHex` (the code renders it as `format!` with `\x7b:X\x7d`, an
upper-case hex string).  Steps: if the path exists, return success at once;
otherwise fetch the object to the path (a missing object leaves the empty
file created by `create_new` behind and fails); then read the checksum
object, take the text before the first space character
(`split(' ').next()`), and compare it to the digest with
`eq_ignore_ascii_case`; on mismatch remove the file and fail, on match
return success. -/
def downloadFile (shaHex : Str → Str) (f : BFile) (st : DlState) :
    Except Str Unit × DlState × DlEffects :=
  if (Store.find st.disk f.path).isSome then
    (.ok (), st, ⟨0, 0⟩)
  else
    match Store.find st.bucket f.object_key with
    | none =>
        (.error "Could not download object to file".toList,
          ⟨st.bucket, (f.path, []) :: st.disk⟩, ⟨1, 1⟩)
    | some content =>
      match Store.find st.bucket f.checksum_key with
      | none =>
          (.error "Could not read object".toList,
            ⟨st.bucket, (f.path, content) :: st.disk⟩, ⟨2, 1⟩)
      | some body =>
        let bucketSha := body.takeWhile (fun c => ! (c = ' ' : Bool))
        let diskSha := shaHex content
        if eqIgnoreAsciiCase bucketSha diskSha then
          (.ok (), ⟨st.bucket, (f.path, content) :: st.disk⟩, ⟨2, 1⟩)
        else
          (.error "Checksum does not match, removing file".toList,
            ⟨st.bucket, Store.erase ((f.path, content) :: st.disk) f.path⟩,
            ⟨2, 2⟩)

/-- The first token of the checksum body as claim C3 reads it: the text
before the first whitespace character (space, tab, newline, carriage
return), not merely before the first space. -/
def firstWhitespaceToken (s : Str) : Str :=
  s.takeWhile (fun c => ! (c = ' ' ∨ c = '\t' ∨ c = '\n' ∨ c = '\r' : Bool))

/-- Erasing a key that is absent from a store changes nothing. -/
theorem storeEraseOfNone (st : Store) (k : Str)
    (h : Store.find st k = none) : Store.erase st k = st := by
  induction st with
  | nil => rfl
  | cons e rest ih =>
    obtain ⟨k0, v⟩ := e
    by_cases h0 : k0 = k
    · subst h0
      simp [Store.find, List.find?] at h
    · have hd : (decide (k0 = k)) = false := by simp [h0]
      have hfind : Store.find rest k = none := by
        simp only [Store.find, List.find?, hd] at h
        exact h
      simp only [Store.erase, List.filter_cons]
      rw [if_pos (show (! (decide ((k0, v).1 = k))) = true from by simp [h0])]
      exact congrArg (List.cons (k0, v)) (ih hfind)

/-- Erasing the just-inserted head key of a store gives the erased tail. -/
theorem storeEraseCons (st : Store) (k : Str) (v : Str) :
    Store.erase ((k, v) :: st) k = Store.erase st k := by
  simp [Store.erase, List.filter_cons]

/-! ## C6 / C9 — `TradesTable::index_file` (trades.rs:155-239) -/

/-- Accumulated insertion statistics (db/utils.rs:8-16). -/
structure AddableQuantities where
  bytes : Nat
  rows : Nat
  transactions : Nat
deriving DecidableEq

/-- `+=` on quantities (db/utils.rs:18-32). -/
def addQ (a b : AddableQuantities) : AddableQuantities :=
  ⟨a.bytes + b.bytes, a.rows + b.rows, a.transactions + b.transactions⟩

/-- `FileIndexLogRow` (trades_index_log.rs:71-91), u32/u64 fields as Nat. -/
structure FileIndexLogRow where
  filename : Str
  start_id : Nat
  end_id : Nat
  start_period_dt : Nat
  end_period_dt : Nat
  database : Str
  table : Str
  num_rows : Nat
  index_dt : Nat
deriving DecidableEq

/-- Log levels of the `log` crate as used by the program. -/
inductive LogLevel where
  | debug
  | info
  | warn
  | error
deriving DecidableEq

/-- The `TradesTable` state relevant to the claims (trades.rs:52-58):
`clientDatabase` is the database the ClickHouse client is bound to —
`create_client` (db/utils.rs:34-43) uppercases it — while `database` is the
constructor argument stored verbatim; `name` is the uppercased table
name. -/
structure TradesTable where
  clientDatabase : Str
  database : Str
  name : Str
deriving DecidableEq

/-- `TradesTable::new` (trades.rs:63-70). -/
def TradesTable.new (database name : Str) : TradesTable :=
  { clientDatabase := toAsciiUpper database
    database := database
    name := toAsciiUpper name }

/-- Database trade rows as written by the inserter; `pair` comes from the
owning file. -/
structure IndexLoopState where
  start_id : Nat
  end_id : Nat
  start_dt : Nat
  end_dt : Nat
  pending : List TradesRow
  stats : AddableQuantities
  tx : Nat
  commits : Nat
  logs : List (LogLevel × Str)

/-- One periodic `inserter.commit()` (trades.rs:194): the clickhouse
inserter ends the active INSERT only when one of its thresholds
(`max_rows = 500_000`, period 15 s) has been reached — wall-clock time is
not modelled, so that decision is supplied by the oracle `flush` — and
returns the quantities of the batch it flushed, or zero quantities when it
kept accumulating.  `rowBytes` abstracts the on-wire size of one row. -/
def inserterCommit (rowBytes : TradesRow → Nat) (flush : Bool)
    (pending : List TradesRow) : AddableQuantities × List TradesRow :=
  if flush then
    (⟨(pending.map rowBytes).sum, pending.length,
      if pending.isEmpty then 0 else 1⟩, [])
  else
    (⟨0, 0, 0⟩, pending)

/-- `inserter.end()` (trades.rs:208): flushes whatever is pending and
returns its quantities. -/
def inserterEnd (rowBytes : TradesRow → Nat) (pending : List TradesRow) :
    AddableQuantities :=
  ⟨(pending.map rowBytes).sum, pending.length,
    if pending.isEmpty then 0 else 1⟩

/-- The record loop of `index_file` (trades.rs:182-207): for each parsed
row update the running min/max of id and time, write the mapped row into
the inserter, and on every 8192nd write invoke a commit point, accumulate
its quantities and emit a debug log when it flushed rows.  A parse error
aborts the whole call (`row?`). -/
def indexLoop (pair : Str) (rowBytes : TradesRow → Nat)
    (flushAt : Nat → Bool) :
    List (Except Str FileRow) → IndexLoopState → Except Str IndexLoopState
  | [], st => .ok st
  | r :: rest, st =>
    match r with
    | .error e => .error e
    | .ok row =>
      let st1 : IndexLoopState :=
        { st with
          start_id := min st.start_id row.id
          end_id := max st.end_id row.id
          start_dt := min st.start_dt row.time
          end_dt := max st.end_dt row.time
          pending := st.pending ++ [TradesRow.new pair row]
          tx := st.tx + 1 }
      if (st.tx + 1) % 8192 = 0 then
        indexLoop pair rowBytes flushAt rest
          { st1 with
            pending := (inserterCommit rowBytes (flushAt st.commits)
              st1.pending).2
            stats := addQ st1.stats
              (inserterCommit rowBytes (flushAt st.commits) st1.pending).1
            tx := 0
            commits := st.commits + 1
            logs := st1.logs ++
              (if (inserterCommit rowBytes (flushAt st.commits)
                  st1.pending).1.rows > 0 then
                [(LogLevel.debug, "Commit".toList)]
              else []) }
      else
        indexLoop pair rowBytes flushAt rest st1

/-- Rust `Path::file_name` for the slash-separated, non-slash-terminated
paths used here: the last `/`-delimited component. -/
def basename (s : Str) : Str :=
  (s.reverse.takeWhile (fun c => ! (c = '/' : Bool))).reverse

/-- `TradesTable::index_file` (trades.rs:155-239): log an info line, run
the record loop from the sentinel counters (`u32::MAX`, `u64::MAX`), flush
the inserter with `end`, log an info line, and emit exactly one index-log
row carrying the file's basename, the counters, the stored database and
table names, `num_rows = stats.rows as u32` (a wrapping cast) and
`index_dt = now`. -/
def indexFile (table : TradesTable) (rowBytes : TradesRow → Nat)
    (flushAt : Nat → Bool) (nowMs : Nat) (file : BFile)
    (records : List (Except Str FileRow)) :
    Except Str (AddableQuantities × FileIndexLogRow × List (LogLevel × Str)) :=
  match indexLoop file.pair rowBytes flushAt records
    ⟨2 ^ 32 - 1, 0, 2 ^ 64 - 1, 0, [], ⟨0, 0, 0⟩, 0, 0,
      [(LogLevel.info, "Indexing".toList)]⟩ with
  | .error e => .error e
  | .ok st =>
    .ok (addQ st.stats (inserterEnd rowBytes st.pending),
      { filename := basename file.path
        start_id := st.start_id
        end_id := st.end_id
        start_period_dt := st.start_dt
        end_period_dt := st.end_dt
        database := table.database
        table := table.name
        num_rows := (addQ st.stats (inserterEnd rowBytes st.pending)).rows
          % 2 ^ 32
        index_dt := nowMs },
      st.logs ++ [(LogLevel.info, "Indexed in".toList)])

/-- A commit conserves the total of flushed and still-pending rows. -/
theorem inserterCommitConserve (rowBytes : TradesRow → Nat) (flush : Bool)
    (pending : List TradesRow) :
    (inserterCommit rowBytes flush pending).1.rows +
      (inserterCommit rowBytes flush pending).2.length = pending.length := by
  cases flush <;> simp [inserterCommit]

/-- Behaviour of the record loop on an error-free record stream: it
succeeds, the total of flushed and pending rows grows by the number of
records, the running min/max counters bound and are attained by the row
ids and times, and every log line it adds is at debug level. -/
theorem indexLoopSpec (pair : Str) (rowBytes : TradesRow → Nat)
    (flushAt : Nat → Bool) :
    ∀ (rows : List FileRow) (st : IndexLoopState),
      ∃ st', indexLoop pair rowBytes flushAt (rows.map .ok) st = .ok st' ∧
        st'.stats.rows + st'.pending.length =
          st.stats.rows + st.pending.length + rows.length ∧
        st'.start_id ≤ st.start_id ∧ st.end_id ≤ st'.end_id ∧
        st'.start_dt ≤ st.start_dt ∧ st.end_dt ≤ st'.end_dt ∧
        (∀ r ∈ rows, st'.start_id ≤ r.id ∧ r.id ≤ st'.end_id ∧
          st'.start_dt ≤ r.time ∧ r.time ≤ st'.end_dt) ∧
        (st'.start_id = st.start_id ∨ ∃ r ∈ rows, st'.start_id = r.id) ∧
        (st'.end_id = st.end_id ∨ ∃ r ∈ rows, st'.end_id = r.id) ∧
        (st'.start_dt = st.start_dt ∨ ∃ r ∈ rows, st'.start_dt = r.time) ∧
        (st'.end_dt = st.end_dt ∨ ∃ r ∈ rows, st'.end_dt = r.time) ∧
        (∀ e ∈ st'.logs, e ∈ st.logs ∨ e.1 = LogLevel.debug) := by
  intro rows
  induction rows with
  | nil =>
    intro st
    exact ⟨st, rfl, by simp, le_refl _, le_refl _, le_refl _, le_refl _,
      by simp, Or.inl rfl, Or.inl rfl, Or.inl rfl, Or.inl rfl,
      fun e he => Or.inl he⟩
  | cons row rest ih =>
    intro st
    by_cases hc : (st.tx + 1) % 8192 = 0
    · obtain ⟨st', hrun, hcount, hsle, hele, hsdle, hedle, hbounds,
        hatt1, hatt2, hatt3, hatt4, hlogs⟩ :=
        ih { st with
          start_id := min st.start_id row.id
          end_id := max st.end_id row.id
          start_dt := min st.start_dt row.time
          end_dt := max st.end_dt row.time
          pending := (inserterCommit rowBytes (flushAt st.commits)
            (st.pending ++ [TradesRow.new pair row])).2
          stats := addQ st.stats
            (inserterCommit rowBytes (flushAt st.commits)
              (st.pending ++ [TradesRow.new pair row])).1
          tx := 0
          commits := st.commits + 1
          logs := st.logs ++
            (if (inserterCommit rowBytes (flushAt st.commits)
                (st.pending ++ [TradesRow.new pair row])).1.rows > 0 then
              [(LogLevel.debug, "Commit".toList)]
            else []) }
      refine ⟨st', ?_, ?_, ?_, ?_, ?_, ?_, ?_, ?_, ?_, ?_, ?_, ?_⟩
      · simp only [List.map_cons, indexLoop]
        rw [if_pos hc]
        exact hrun
      · have hcons := inserterCommitConserve rowBytes (flushAt st.commits)
          (st.pending ++ [TradesRow.new pair row])
        have happ : (st.pending ++ [TradesRow.new pair row]).length =
          st.pending.length + 1 := by simp
        simp only [addQ] at hcount
        simp only [List.length_cons]
        omega
      · exact le_trans hsle (min_le_left _ _)
      · exact le_trans (le_max_left _ _) hele
      · exact le_trans hsdle (min_le_left _ _)
      · exact le_trans (le_max_left _ _) hedle
      · intro r hr
        rcases List.mem_cons.mp hr with rfl | hr'
        · exact ⟨le_trans hsle (min_le_right _ _),
            le_trans (le_max_right _ _) hele,
            le_trans hsdle (min_le_right _ _),
            le_trans (le_max_right _ _) hedle⟩
        · exact hbounds r hr'
      · rcases hatt1 with h | ⟨r, hr, he⟩
        · rcases le_total st.start_id row.id with hle | hle
          · exact Or.inl (h.trans (min_eq_left hle))
          · exact Or.inr ⟨row, List.mem_cons_self row rest,
              h.trans (min_eq_right hle)⟩
        · exact Or.inr ⟨r, List.mem_cons_of_mem _ hr, he⟩
      · rcases hatt2 with h | ⟨r, hr, he⟩
        · rcases le_total st.end_id row.id with hle | hle
          · exact Or.inr ⟨row, List.mem_cons_self row rest,
              h.trans (max_eq_right hle)⟩
          · exact Or.inl (h.trans (max_eq_left hle))
        · exact Or.inr ⟨r, List.mem_cons_of_mem _ hr, he⟩
      · rcases hatt3 with h | ⟨r, hr, he⟩
        · rcases le_total st.start_dt row.time with hle | hle
          · exact Or.inl (h.trans (min_eq_left hle))
          · exact Or.inr ⟨row, List.mem_cons_self row rest,
              h.trans (min_eq_right hle)⟩
        · exact Or.inr ⟨r, List.mem_cons_of_mem _ hr, he⟩
      · rcases hatt4 with h | ⟨r, hr, he⟩
        · rcases le_total st.end_dt row.time with hle | hle
          · exact Or.inr ⟨row, List.mem_cons_self row rest,
              h.trans (max_eq_right hle)⟩
          · exact Or.inl (h.trans (max_eq_left hle))
        · exact Or.inr ⟨r, List.mem_cons_of_mem _ hr, he⟩
      · intro e he
        rcases hlogs e he with h | h
        · have h' : e ∈ st.logs ++
              (if (inserterCommit rowBytes (flushAt st.commits)
                  (st.pending ++ [TradesRow.new pair row])).1.rows > 0 then
                [(LogLevel.debug, "Commit".toList)]
              else []) := h
          rcases List.mem_append.mp h' with h'' | h''
          · exact Or.inl h''
          · by_cases hq : (inserterCommit rowBytes (flushAt st.commits)
                (st.pending ++ [TradesRow.new pair row])).1.rows > 0
            · rw [if_pos hq] at h''
              simp at h''
              exact Or.inr (by rw [h''])
            · rw [if_neg hq] at h''
              cases h''
        · exact Or.inr h
    · obtain ⟨st', hrun, hcount, hsle, hele, hsdle, hedle, hbounds,
        hatt1, hatt2, hatt3, hatt4, hlogs⟩ :=
        ih { st with
          start_id := min st.start_id row.id
          end_id := max st.end_id row.id
          start_dt := min st.start_dt row.time
          end_dt := max st.end_dt row.time
          pending := st.pending ++ [TradesRow.new pair row]
          tx := st.tx + 1 }
      refine ⟨st', ?_, ?_, ?_, ?_, ?_, ?_, ?_, ?_, ?_, ?_, ?_, ?_⟩
      · simp only [List.map_cons, indexLoop]
        rw [if_neg hc]
        exact hrun
      · have happ : (st.pending ++ [TradesRow.new pair row]).length =
          st.pending.length + 1 := by simp
        simp at hcount
        simp only [List.length_cons]
        omega
      · exact le_trans hsle (min_le_left _ _)
      · exact le_trans (le_max_left _ _) hele
      · exact le_trans hsdle (min_le_left _ _)
      · exact le_trans (le_max_left _ _) hedle
      · intro r hr
        rcases List.mem_cons.mp hr with rfl | hr'
        · exact ⟨le_trans hsle (min_le_right _ _),
            le_trans (le_max_right _ _) hele,
            le_trans hsdle (min_le_right _ _),
            le_trans (le_max_right _ _) hedle⟩
        · exact hbounds r hr'
      · rcases hatt1 with h | ⟨r, hr, he⟩
        · rcases le_total st.start_id row.id with hle | hle
          · exact Or.inl (h.trans (min_eq_left hle))
          · exact Or.inr ⟨row, List.mem_cons_self row rest,
              h.trans (min_eq_right hle)⟩
        · exact Or.inr ⟨r, List.mem_cons_of_mem _ hr, he⟩
      · rcases hatt2 with h | ⟨r, hr, he⟩
        · rcases le_total st.end_id row.id with hle | hle
          · exact Or.inr ⟨row, List.mem_cons_self row rest,
              h.trans (max_eq_right hle)⟩
          · exact Or.inl (h.trans (max_eq_left hle))
        · exact Or.inr ⟨r, List.mem_cons_of_mem _ hr, he⟩
      · rcases hatt3 with h | ⟨r, hr, he⟩
        · rcases le_total st.start_dt row.time with hle | hle
          · exact Or.inl (h.trans (min_eq_left hle))
          · exact Or.inr ⟨row, List.mem_cons_self row rest,
              h.trans (min_eq_right hle)⟩
        · exact Or.inr ⟨r, List.mem_cons_of_mem _ hr, he⟩
      · rcases hatt4 with h | ⟨r, hr, he⟩
        · rcases le_total st.end_dt row.time with hle | hle
          · exact Or.inr ⟨row, List.mem_cons_self row rest,
              h.trans (max_eq_right hle)⟩
          · exact Or.inl (h.trans (max_eq_left hle))
        · exact Or.inr ⟨r, List.mem_cons_of_mem _ hr, he⟩
      · exact hlogs

/-! ## Theorems -/

/-- **C1** (corrected), counterexample: with no filters supplied at all, the
claimed decision table accepts every pair, but the retain closure of
`Downloader::get_pairs` falls through to `false` and rejects it. -/
theorem c1_get_pairs_counterexample :
    retainPair ⟨none, none, none⟩ "BTCUSDT".toList = false ∧
    retainPairClaimed ⟨none, none, none⟩ "BTCUSDT".toList = true := by
  constructor <;> rfl

/-- **C1** (corrected), amended claim: acceptance is evaluated in order —
an `excluded` substring match rejects, then a `starts_with` prefix match or
an `ends_with` suffix match accepts — and otherwise the pair is rejected; in
particular, when neither positive filter is supplied every pair is rejected,
even one matching no `excluded` entry. -/
theorem c1_get_pairs_filter (f : PairFilters) (name : Str) :
    retainPair f name = true ↔
      excludedMatches f name = false ∧
        (startsWithMatches f name = true ∨ endsWithMatches f name = true) := by
  unfold retainPair
  rcases hex : excludedMatches f name <;>
    rcases hsw : startsWithMatches f name <;>
      rcases hew : endsWithMatches f name <;> simp

/-- **C2** (corrected), counterexample: for the bucket key
`data/data/x` — of the form `data/<rest>` — the derived path is not
`<dir>/binance/data/x` as claimed: `str::replace` rewrites every occurrence
of `data/`, producing `<dir>/binance/binance/x`. -/
theorem c2_path_counterexample :
    fileNewPath id "/d".toList ("data/".toList ++ "data/x".toList) ≠
      pathJoin (trimEndSlashes "/d".toList)
        ("binance/".toList ++ "data/x".toList) := by
  decide

/-- **C2** (corrected), amended claim: `File::new` rewrites every occurrence
of `data/` in the object key to `binance/` (not only the leading segment),
prefixes the configured data directory with trailing slashes trimmed, and
expands the result; consequently, for keys `data/<rest>` in which `data/`
does not reoccur inside `<rest>`, the derived path is
`<cfg.data.dir>/binance/<rest>` after expansion. -/
theorem c2_path_derivation (expand : Str → Str) (dataDir rest : Str)
    (h : containsSub "data/".toList rest = false) :
    fileNewPath expand dataDir ("data/".toList ++ rest) =
      expand (pathJoin (trimEndSlashes dataDir) ("binance/".toList ++ rest)) := by
  unfold fileNewPath
  rw [replaceAllAppend _ _ _ (by decide), replaceAllNoOcc _ _ _ h]

/-- **C2** witness: the amended derivation applied to a concrete directory
with trailing slashes and a concrete key. -/
theorem c2_path_derivation_witness :
    fileNewPath id "/dd//".toList ("data/".toList ++ "spot/x.zip".toList) =
      pathJoin (trimEndSlashes "/dd//".toList)
        ("binance/".toList ++ "spot/x.zip".toList) :=
  c2_path_derivation id "/dd//".toList "spot/x.zip".toList (by decide)

/-- **C8** (corrected), counterexample: constructing a `Downloader` with
data-type `aggTrades` (not `trades`) succeeds — `Downloader::new` never
inspects the data-type, contradicting the claim that a non-`trades`
data-type fails fast at construction. -/
theorem c8_new_counterexample :
    Downloader.new "x".toList .spot .monthly .aggTrades =
      .ok { name := "x".toList, asset := .spot, cadence := .monthly,
            data_type := .aggTrades,
            pair_filter_excluded := none,
            pair_filter_starts_with := none,
            pair_filter_ends_with := none } := by
  rfl

/-- **C8** (corrected), amended claim: constructing a `Downloader` with an
asset other than spot panics via `todo!` with a "not implemented" message
(no error value is returned to the caller), while construction with asset
spot succeeds for every cadence and every data-type — the data-type is not
validated at construction. -/
theorem c8_new_variants (name : Str) (asset : Asset) (cadence : Cadence)
    (data_type : DataType) :
    (asset = .spot →
      Downloader.new name asset cadence data_type =
        .ok { name := name, asset := asset, cadence := cadence,
              data_type := data_type,
              pair_filter_excluded := none,
              pair_filter_starts_with := none,
              pair_filter_ends_with := none }) ∧
    (asset ≠ .spot →
      Downloader.new name asset cadence data_type =
        .panicked "not yet implemented: Futures | Option not implemented.".toList) := by
  constructor
  · intro h; subst h; rfl
  · intro h; cases asset with
    | spot => exact absurd rfl h
    | futures => rfl
    | option' => rfl

/-- **C8** witness: the amended theorem applied at concrete inputs, both the
spot branch and a non-spot branch. -/
theorem c8_new_variants_witness :
    Downloader.new "d".toList .spot .daily .trades =
      .ok { name := "d".toList, asset := .spot, cadence := .daily,
            data_type := .trades,
            pair_filter_excluded := none,
            pair_filter_starts_with := none,
            pair_filter_ends_with := none } ∧
    Downloader.new "d".toList .futures .daily .trades =
      .panicked "not yet implemented: Futures | Option not implemented.".toList :=
  ⟨(c8_new_variants "d".toList .spot .daily .trades).1 rfl,
   (c8_new_variants "d".toList .futures .daily .trades).2 (by decide)⟩

/-- **C5** (confirmed): for every parsed source row with
`is_buyer_maker = m`, the database row built by `TradesRow::new` has
`side = !m` and `notional = quote_qty`, preserves `dt = time`, `id`,
`price` and `qty` unchanged, and takes `pair` from the owning file. -/
theorem c5_row_mapping (pair : Str) (row : FileRow) :
    (TradesRow.new pair row).side = !row.is_buyer_maker ∧
    (TradesRow.new pair row).notional = row.quote_qty ∧
    (TradesRow.new pair row).dt = row.time ∧
    (TradesRow.new pair row).id = row.id ∧
    (TradesRow.new pair row).price = row.price ∧
    (TradesRow.new pair row).qty = row.qty ∧
    (TradesRow.new pair row).pair = pair := by
  refine ⟨rfl, rfl, rfl, rfl, rfl, rfl, rfl⟩

/-- **C7** (corrected), counterexample: a record whose `is_best_match`
column holds `zzz` — not one of the four boolean literals — parses
successfully, because `#[serde(skip)]` keeps that column from ever being
read; the claim says any such value must cause a parse error. -/
theorem c7_bool_field_counterexample :
    parseRow ["1".toList, "1.0".toList, "2.0".toList, "2.0".toList,
        "1000".toList, "true".toList, "zzz".toList] =
      .ok { id := 1, price := ⟨"1.0".toList⟩, qty := ⟨"2.0".toList⟩,
            quote_qty := ⟨"2.0".toList⟩, time := 1000,
            is_buyer_maker := true, is_best_match := false } ∧
    ("zzz".toList ∉ ["true".toList, "True".toList,
        "false".toList, "False".toList]) := by
  constructor
  · rfl
  · decide

/-- **C7** (corrected), amended claim: only the `is_buyer_maker` column is
parsed as a boolean, accepting exactly `true`, `True`, `false`, `False` and
failing the record on any other value (provided the preceding numeric
fields parse); the `is_best_match` column is never parsed — `#[serde(skip)]`
ignores it, so any value there is accepted and the field is always
`false`. -/
theorem c7_bool_fields (fid fp fq fqq ft fibm : Str) (rest : List Str)
    (h1 : (parseU32 fid).isOk = true) (h2 : (parseF32 fp).isOk = true)
    (h3 : (parseF32 fq).isOk = true) (h4 : (parseF32 fqq).isOk = true)
    (h5 : (parseU64 ft).isOk = true) :
    ((parseRow (fid :: fp :: fq :: fqq :: ft :: fibm :: rest)).isOk = true ↔
      (fibm = "true".toList ∨ fibm = "True".toList ∨
       fibm = "false".toList ∨ fibm = "False".toList)) ∧
    (∀ row, parseRow (fid :: fp :: fq :: fqq :: ft :: fibm :: rest) = .ok row →
      row.is_best_match = false ∧
      (row.is_buyer_maker = true ↔
        (fibm = "true".toList ∨ fibm = "True".toList))) := by
  obtain ⟨vid, hid⟩ := (exceptIsOkIff _).mp h1
  obtain ⟨vp, hp⟩ := (exceptIsOkIff _).mp h2
  obtain ⟨vq, hq⟩ := (exceptIsOkIff _).mp h3
  obtain ⟨vqq, hqq⟩ := (exceptIsOkIff _).mp h4
  obtain ⟨vt, ht⟩ := (exceptIsOkIff _).mp h5
  simp only [parseRow, hid, hp, hq, hqq, ht]
  rcases boolFromStrSpec fibm with ⟨hb, hn1, hn2, hn3, hn4⟩ |
    ⟨hb, hl⟩ | ⟨hb, hl⟩ <;> rw [hb]
  · refine ⟨?_, ?_⟩
    · simp only [Except.isOk]
      constructor
      · intro h; exact Bool.noConfusion h
      · intro h; tauto
    · intro row hrow; cases hrow
  · refine ⟨?_, ?_⟩
    · simp only [Except.isOk]
      constructor
      · intro _; tauto
      · intro _; rfl
    · intro row hrow
      cases hrow
      exact ⟨rfl, by simpa using hl⟩
  · refine ⟨?_, ?_⟩
    · simp only [Except.isOk]
      constructor
      · intro _; tauto
      · intro _; rfl
    · intro row hrow
      cases hrow
      refine ⟨rfl, ?_⟩
      constructor
      · intro h; exact Bool.noConfusion h
      · intro h
        exfalso
        rcases hl with h' | h' <;> subst h' <;>
          rcases h with h | h <;> exact absurd h (by decide)

/-- **C7** witness: the amended theorem applied at a concrete record with a
valid `is_buyer_maker` literal. -/
theorem c7_bool_fields_witness :
    ((parseRow ["7".toList, "0.5".toList, "2".toList, "1.0".toList,
        "99".toList, "False".toList, "whatever".toList]).isOk = true ↔
      ("False".toList = "true".toList ∨ "False".toList = "True".toList ∨
       "False".toList = "false".toList ∨ "False".toList = "False".toList)) ∧
    (∀ row, parseRow ["7".toList, "0.5".toList, "2".toList, "1.0".toList,
        "99".toList, "False".toList, "whatever".toList] = .ok row →
      row.is_best_match = false ∧
      (row.is_buyer_maker = true ↔
        ("False".toList = "true".toList ∨ "False".toList = "True".toList))) :=
  c7_bool_fields "7".toList "0.5".toList "2".toList "1.0".toList
    "99".toList "False".toList ["whatever".toList]
    (by decide) (by decide) (by decide) (by decide) (by decide)

/-- **C4** (confirmed): `from_objects` groups the object list by key with
the checksum suffix stripped from checksum entries; when every archive has
its checksum partner and every checksum its archive (over a duplicate-free
key list), it returns exactly one `File` per (archive, checksum) pair; and
whenever some group is missing either member the construction fails. -/
theorem c4_from_objects (expand : Str → Str) (dataDir pair suffix : Str)
    (objects : List S3Object) :
    ((∀ o ∈ objects, suffix.isSuffixOf o.key = false →
        ∃ o' ∈ objects, o'.key = o.key ++ suffix) →
     (∀ o ∈ objects, suffix.isSuffixOf o.key = true →
        ∃ o' ∈ objects, suffix.isSuffixOf o'.key = false ∧
          o.key = o'.key ++ suffix) →
     (objects.map S3Object.key).Nodup →
     ∃ files, fromObjects expand dataDir pair objects suffix = .ok files ∧
       files.length =
         (objects.filter (fun o => ! suffix.isSuffixOf o.key)).length) ∧
    ((∃ o ∈ objects, suffix.isSuffixOf o.key = false ∧
        ∀ o' ∈ objects, suffix.isSuffixOf o'.key = true →
          stripKey suffix o'.key ≠ o.key) →
     ∃ e, fromObjects expand dataDir pair objects suffix = .error e) ∧
    ((∃ o ∈ objects, suffix.isSuffixOf o.key = true ∧
        ∀ o' ∈ objects, suffix.isSuffixOf o'.key = false →
          stripKey suffix o'.key ≠ stripKey suffix o.key) →
     ∃ e, fromObjects expand dataDir pair objects suffix = .error e) := by
  refine ⟨?_, ?_, ?_⟩
  · intro HA HC Hnd
    have chkToArch : ∀ k, chkIn suffix objects k → archIn suffix objects k := by
      rintro k ⟨o, ho, hsuf, hstrip⟩
      obtain ⟨o', ho', hsuf', hkey⟩ := HC o ho hsuf
      have hso : stripKey suffix o.key = o'.key := by
        rw [hkey, stripKeyAppend]
      exact ⟨o', ho', hsuf',
        by rw [stripKeyOfNotSuffix _ _ hsuf']; exact hso.symm.trans hstrip⟩
    have archToChk : ∀ k, archIn suffix objects k → chkIn suffix objects k := by
      rintro k ⟨o, ho, hsuf, hstrip⟩
      have hko : o.key = k := by
        rw [← stripKeyOfNotSuffix suffix o.key hsuf]; exact hstrip
      obtain ⟨o', ho', hkey⟩ := HA o ho hsuf
      refine ⟨o', ho', ?_, ?_⟩
      · rw [hkey, hko]; exact isSuffixOfAppend suffix k
      · rw [hkey, hko, stripKeyAppend]
    have hMnd := groupObjectsNodup objects suffix
    have hcomplete : ∀ x ∈ ((groupObjects objects suffix).map (fun g =>
        match g.2 with
        | (some obj, some chk) =>
            Except.ok (File.new expand dataDir pair obj.key chk.key)
        | _ => Except.error "Missing an object or a checksum".toList)),
        ∃ a, x = .ok a := by
      intro x hx
      obtain ⟨⟨k, g⟩, hg, rfl⟩ := List.mem_map.mp hx
      have hlk : lookupGroup (groupObjects objects suffix) k = some g :=
        lookupOfMemNodup _ k g hMnd hg
      have hex : (lookupGroup (groupObjects objects suffix) k).isSome = true := by
        rw [hlk]; rfl
      have harch : archIn suffix objects k := by
        rcases (groupObjectsLookupIsSome objects suffix k).mp hex with h | h
        · exact h
        · exact chkToArch k h
      have hchk : chkIn suffix objects k := archToChk k harch
      have h1 : g.1.isSome = true := by
        obtain ⟨g', hg', hs⟩ :=
          (groupObjectsArchPresent objects suffix k).mpr harch
        rw [hlk] at hg'
        rw [Option.some.inj hg']
        exact hs
      have h2 : g.2.isSome = true := by
        obtain ⟨g', hg', hs⟩ :=
          (groupObjectsChkPresent objects suffix k).mpr hchk
        rw [hlk] at hg'
        rw [Option.some.inj hg']
        exact hs
      obtain ⟨g1, g2⟩ := g
      obtain ⟨a, ha⟩ := Option.isSome_iff_exists.mp h1
      obtain ⟨b, hb⟩ := Option.isSome_iff_exists.mp h2
      simp only at ha hb
      subst ha
      subst hb
      exact ⟨_, rfl⟩
    obtain ⟨files, hok, hlen⟩ := collectResultsOk _ hcomplete
    refine ⟨files, hok, ?_⟩
    have hkeyseq : ∀ k, k ∈ (groupObjects objects suffix).map Prod.fst ↔
        k ∈ (objects.filter
          (fun o => ! suffix.isSuffixOf o.key)).map S3Object.key := by
      intro k
      rw [← lookupGroupIsSomeIff, groupObjectsLookupIsSome]
      constructor
      · intro h
        have harch : archIn suffix objects k := by
          rcases h with h | h
          · exact h
          · exact chkToArch k h
        obtain ⟨o, ho, hsuf, hstrip⟩ := harch
        refine List.mem_map.mpr ⟨o, List.mem_filter.mpr ⟨ho, by simp [hsuf]⟩, ?_⟩
        rw [← stripKeyOfNotSuffix suffix o.key hsuf]
        exact hstrip
      · intro h
        obtain ⟨o, hof, hkey⟩ := List.mem_map.mp h
        have hfm := List.mem_filter.mp hof
        have hsuf : suffix.isSuffixOf o.key = false := by
          have := hfm.2
          simp at this
          exact this
        exact Or.inl ⟨o, hfm.1, hsuf,
          by rw [stripKeyOfNotSuffix suffix o.key hsuf]; exact hkey⟩
    have hAnd : ((objects.filter
        (fun o => ! suffix.isSuffixOf o.key)).map S3Object.key).Nodup :=
      List.Nodup.sublist
        (List.Sublist.map S3Object.key (List.filter_sublist objects)) Hnd
    have hfin : ((groupObjects objects suffix).map Prod.fst).toFinset =
        ((objects.filter
          (fun o => ! suffix.isSuffixOf o.key)).map S3Object.key).toFinset := by
      apply Finset.ext
      intro a
      simp only [List.mem_toFinset]
      exact hkeyseq a
    have hc1 := List.toFinset_card_of_nodup hMnd
    have hc2 := List.toFinset_card_of_nodup hAnd
    have hlen2 : ((groupObjects objects suffix).map Prod.fst).length =
        ((objects.filter
          (fun o => ! suffix.isSuffixOf o.key)).map S3Object.key).length := by
      rw [← hc1, ← hc2, hfin]
    rw [hlen, List.length_map]
    have := hlen2
    rw [List.length_map, List.length_map] at this
    exact this
  · rintro ⟨o, ho, hsuf, hnone⟩
    have harch : archIn suffix objects o.key :=
      ⟨o, ho, hsuf, stripKeyOfNotSuffix suffix o.key hsuf⟩
    have hex : (lookupGroup (groupObjects objects suffix) o.key).isSome = true :=
      (groupObjectsLookupIsSome objects suffix o.key).mpr (Or.inl harch)
    obtain ⟨g, hg⟩ := Option.isSome_iff_exists.mp hex
    have hnochk : ¬ chkPresent (groupObjects objects suffix) o.key := by
      rw [groupObjectsChkPresent]
      rintro ⟨o', ho', hsuf', hstrip'⟩
      exact hnone o' ho' hsuf' hstrip'
    have hg2 : g.2 = none := by
      cases h2 : g.2 with
      | none => rfl
      | some b =>
        exact absurd ⟨g, hg, by rw [h2]; rfl⟩ hnochk
    apply collectResultsError
    refine ⟨_, List.mem_map.mpr ⟨(o.key, g), lookupGroupMem _ _ _ hg, rfl⟩, ?_⟩
    obtain ⟨g1, g2⟩ := g
    simp only at hg2
    subst hg2
    cases g1 <;> exact ⟨_, rfl⟩
  · rintro ⟨o, ho, hsuf, hnone⟩
    have hchk : chkIn suffix objects (stripKey suffix o.key) :=
      ⟨o, ho, hsuf, rfl⟩
    have hex : (lookupGroup (groupObjects objects suffix)
        (stripKey suffix o.key)).isSome = true :=
      (groupObjectsLookupIsSome objects suffix _).mpr (Or.inr hchk)
    obtain ⟨g, hg⟩ := Option.isSome_iff_exists.mp hex
    have hnoarch : ¬ archPresent (groupObjects objects suffix)
        (stripKey suffix o.key) := by
      rw [groupObjectsArchPresent]
      rintro ⟨o', ho', hsuf', hstrip'⟩
      exact hnone o' ho' hsuf' hstrip'
    have hg1 : g.1 = none := by
      cases h1 : g.1 with
      | none => rfl
      | some a =>
        exact absurd ⟨g, hg, by rw [h1]; rfl⟩ hnoarch
    apply collectResultsError
    refine ⟨_, List.mem_map.mpr
      ⟨(stripKey suffix o.key, g), lookupGroupMem _ _ _ hg, rfl⟩, ?_⟩
    obtain ⟨g1, g2⟩ := g
    simp only at hg1
    subst hg1
    exact ⟨_, rfl⟩

/-- **C4** witness: the three conjuncts applied at concrete object lists —
a perfectly paired list yielding one `File`, an archive without checksum,
and a checksum without archive. -/
theorem c4_from_objects_witness :
    (∃ files, fromObjects id "/d".toList "P".toList
        [⟨"a.zip".toList⟩, ⟨"a.zip.CHECKSUM".toList⟩] ".CHECKSUM".toList =
        .ok files ∧
      files.length =
        ([⟨"a.zip".toList⟩, (⟨"a.zip.CHECKSUM".toList⟩ : S3Object)].filter
          (fun o => ! ".CHECKSUM".toList.isSuffixOf o.key)).length) ∧
    (∃ e, fromObjects id "/d".toList "P".toList [⟨"b.zip".toList⟩]
        ".CHECKSUM".toList = .error e) ∧
    (∃ e, fromObjects id "/d".toList "P".toList [⟨"c.zip.CHECKSUM".toList⟩]
        ".CHECKSUM".toList = .error e) :=
  ⟨(c4_from_objects id "/d".toList "P".toList ".CHECKSUM".toList
      [⟨"a.zip".toList⟩, ⟨"a.zip.CHECKSUM".toList⟩]).1
      (by decide) (by decide) (by decide),
   (c4_from_objects id "/d".toList "P".toList ".CHECKSUM".toList
      [⟨"b.zip".toList⟩]).2.1 (by decide),
   (c4_from_objects id "/d".toList "P".toList ".CHECKSUM".toList
      [⟨"c.zip.CHECKSUM".toList⟩]).2.2 (by decide)⟩

/-- **C3** (corrected), counterexample: the checksum body `AB<tab>x y`
has first *whitespace*-separated token `AB`, which matches the digest —
so the claim predicts success — but the code splits on the space character
only (`split(' ')`), compares `AB<tab>x` against the digest, fails, and
deletes the file. -/
theorem c3_checksum_counterexample :
    eqIgnoreAsciiCase (firstWhitespaceToken "AB\tx y".toList) "AB".toList
      = true ∧
    (downloadFile (fun _ => "AB".toList)
        ⟨"P".toList, "data/a.zip".toList, "data/a.zip.CHECKSUM".toList,
          "/d/a.zip".toList⟩
        ⟨[("data/a.zip".toList, "zz".toList),
          ("data/a.zip.CHECKSUM".toList, "AB\tx y".toList)], []⟩).1 =
      .error "Checksum does not match, removing file".toList ∧
    Store.find
      (downloadFile (fun _ => "AB".toList)
        ⟨"P".toList, "data/a.zip".toList, "data/a.zip.CHECKSUM".toList,
          "/d/a.zip".toList⟩
        ⟨[("data/a.zip".toList, "zz".toList),
          ("data/a.zip.CHECKSUM".toList, "AB\tx y".toList)], []⟩).2.1.disk
      "/d/a.zip".toList = none := by
  refine ⟨by decide, by rfl, by rfl⟩

/-- **C3** (corrected), amended claim: after fetching the archive object,
`download` computes the SHA-256 of the local file and compares it
case-insensitively against the text of the checksum body before the first
*space* character (`split(' ')`; other whitespace is not a separator); on
mismatch it deletes the downloaded file and returns a checksum-mismatch
error, and on match it returns success with the file left on disk. -/
theorem c3_download_checksum (shaHex : Str → Str) (f : BFile) (st : DlState)
    (content body : Str)
    (h1 : Store.find st.disk f.path = none)
    (h2 : Store.find st.bucket f.object_key = some content)
    (h3 : Store.find st.bucket f.checksum_key = some body) :
    (eqIgnoreAsciiCase (body.takeWhile (fun c => ! (c = ' ' : Bool)))
        (shaHex content) = true →
      downloadFile shaHex f st =
        (.ok (), ⟨st.bucket, (f.path, content) :: st.disk⟩, ⟨2, 1⟩)) ∧
    (eqIgnoreAsciiCase (body.takeWhile (fun c => ! (c = ' ' : Bool)))
        (shaHex content) = false →
      downloadFile shaHex f st =
        (.error "Checksum does not match, removing file".toList,
          st, ⟨2, 2⟩)) := by
  have hne : Store.erase st.disk f.path = st.disk :=
    storeEraseOfNone st.disk f.path h1
  constructor
  · intro hm
    simp [downloadFile, h1, h2, h3, hm]
  · intro hm
    have hst : (⟨st.bucket, st.disk⟩ : DlState) = st := rfl
    simp [downloadFile, h1, h2, h3, hm, storeEraseCons, hne, hst]

/-- **C3** witness: the amended theorem at a concrete state, match branch
(a lower-case digest matching an upper-case checksum token). -/
theorem c3_download_checksum_witness :
    (eqIgnoreAsciiCase
        (("AB cd".toList).takeWhile (fun c => ! (c = ' ' : Bool)))
        ((fun _ => "ab".toList) "zz".toList) = true →
      downloadFile (fun _ => "ab".toList)
        ⟨"P".toList, "data/a.zip".toList, "data/a.zip.CHECKSUM".toList,
          "/d/a.zip".toList⟩
        ⟨[("data/a.zip".toList, "zz".toList),
          ("data/a.zip.CHECKSUM".toList, "AB cd".toList)], []⟩ =
        (.ok (), ⟨[("data/a.zip".toList, "zz".toList),
          ("data/a.zip.CHECKSUM".toList, "AB cd".toList)],
          ("/d/a.zip".toList, "zz".toList) :: []⟩, ⟨2, 1⟩)) ∧
    (eqIgnoreAsciiCase
        (("AB cd".toList).takeWhile (fun c => ! (c = ' ' : Bool)))
        ((fun _ => "ab".toList) "zz".toList) = false →
      downloadFile (fun _ => "ab".toList)
        ⟨"P".toList, "data/a.zip".toList, "data/a.zip.CHECKSUM".toList,
          "/d/a.zip".toList⟩
        ⟨[("data/a.zip".toList, "zz".toList),
          ("data/a.zip.CHECKSUM".toList, "AB cd".toList)], []⟩ =
        (.error "Checksum does not match, removing file".toList,
          ⟨[("data/a.zip".toList, "zz".toList),
            ("data/a.zip.CHECKSUM".toList, "AB cd".toList)], []⟩, ⟨2, 2⟩)) :=
  c3_download_checksum (fun _ => "ab".toList)
    ⟨"P".toList, "data/a.zip".toList, "data/a.zip.CHECKSUM".toList,
      "/d/a.zip".toList⟩
    ⟨[("data/a.zip".toList, "zz".toList),
      ("data/a.zip.CHECKSUM".toList, "AB cd".toList)], []⟩
    "zz".toList "AB cd".toList (by rfl) (by rfl) (by rfl)

/-- **C10** (confirmed): when the target path already exists on disk,
`download` returns success immediately with zero bucket GETs, zero
filesystem writes and an unchanged state; consequently, after any
successful call, a second call performs zero bucket GETs and no filesystem
writes. -/
theorem c10_download_idempotent (shaHex : Str → Str) (f : BFile)
    (st : DlState) :
    ((Store.find st.disk f.path).isSome = true →
      downloadFile shaHex f st = (.ok (), st, ⟨0, 0⟩)) ∧
    (∀ st' eff, downloadFile shaHex f st = (.ok (), st', eff) →
      downloadFile shaHex f st' = (.ok (), st', ⟨0, 0⟩)) := by
  constructor
  · intro h
    unfold downloadFile
    rw [if_pos h]
  · intro st' eff h
    by_cases hd : (Store.find st.disk f.path).isSome = true
    · unfold downloadFile at h
      rw [if_pos hd] at h
      cases h
      unfold downloadFile
      rw [if_pos hd]
    · unfold downloadFile at h
      rw [if_neg hd] at h
      cases hb : Store.find st.bucket f.object_key with
      | none =>
        rw [hb] at h
        exact absurd (congrArg Prod.fst h) (by simp)
      | some content =>
        rw [hb] at h
        cases hc : Store.find st.bucket f.checksum_key with
        | none =>
          rw [hc] at h
          exact absurd (congrArg Prod.fst h) (by simp)
        | some body =>
          rw [hc] at h
          simp only at h
          by_cases hm : eqIgnoreAsciiCase
              (body.takeWhile (fun c => ! (c = ' ' : Bool)))
              (shaHex content) = true
          · rw [if_pos hm] at h
            cases h
            have hfound : (Store.find
                ((f.path, content) :: st.disk) f.path).isSome = true := by
              simp [Store.find, List.find?]
            unfold downloadFile
            rw [if_pos hfound]
          · rw [if_neg hm] at h
            exact absurd (congrArg Prod.fst h) (by simp)

/-- **C10** witness: both conjuncts at concrete states — an
already-downloaded file, and a second call following a concrete successful
first download. -/
theorem c10_download_idempotent_witness :
    ((Store.find (⟨[], [("/d/a.zip".toList, "zz".toList)]⟩ :
        DlState).disk "/d/a.zip".toList).isSome = true →
      downloadFile (fun _ => "AB".toList)
        ⟨"P".toList, "data/a.zip".toList, "data/a.zip.CHECKSUM".toList,
          "/d/a.zip".toList⟩
        ⟨[], [("/d/a.zip".toList, "zz".toList)]⟩ =
        (.ok (), ⟨[], [("/d/a.zip".toList, "zz".toList)]⟩, ⟨0, 0⟩)) ∧
    (downloadFile (fun _ => "AB".toList)
        ⟨"P".toList, "data/a.zip".toList, "data/a.zip.CHECKSUM".toList,
          "/d/a.zip".toList⟩
        ⟨[("data/a.zip".toList, "zz".toList),
          ("data/a.zip.CHECKSUM".toList, "AB x".toList)],
          [("/d/a.zip".toList, "zz".toList)]⟩ =
      (.ok (), ⟨[("data/a.zip".toList, "zz".toList),
          ("data/a.zip.CHECKSUM".toList, "AB x".toList)],
          [("/d/a.zip".toList, "zz".toList)]⟩, ⟨0, 0⟩)) :=
  ⟨(c10_download_idempotent (fun _ => "AB".toList)
      ⟨"P".toList, "data/a.zip".toList, "data/a.zip.CHECKSUM".toList,
        "/d/a.zip".toList⟩
      ⟨[], [("/d/a.zip".toList, "zz".toList)]⟩).1,
   (c10_download_idempotent (fun _ => "AB".toList)
      ⟨"P".toList, "data/a.zip".toList, "data/a.zip.CHECKSUM".toList,
        "/d/a.zip".toList⟩
      ⟨[("data/a.zip".toList, "zz".toList),
        ("data/a.zip.CHECKSUM".toList, "AB x".toList)], []⟩).2
      ⟨[("data/a.zip".toList, "zz".toList),
        ("data/a.zip.CHECKSUM".toList, "AB x".toList)],
        [("/d/a.zip".toList, "zz".toList)]⟩ ⟨2, 1⟩ (by rfl)⟩

/-- **C6** (corrected), counterexample: with the configured database name
`test` (as in main.rs), the emitted index-log row's `database` field is
`test` — the constructor argument stored verbatim — while the rows were
inserted through a client bound to the uppercased database `TEST`, so the
field does not match the uppercased name the claim requires. -/
theorem c6_index_log_counterexample :
    ((indexFile (TradesTable.new "test".toList "trades_any_usdc".toList)
        (fun _ => 0) (fun _ => false) 0
        ⟨"P".toList, "k".toList, "kc".toList, "/d/a.zip".toList⟩ []).map
      (fun out => out.2.1.database)) = .ok "test".toList ∧
    "test".toList ≠
      (TradesTable.new "test".toList
        "trades_any_usdc".toList).clientDatabase := by
  exact ⟨rfl, by decide⟩

/-- **C6** (corrected), amended claim: every successful `index_file` call
emits exactly one index-log row whose `table` field is the uppercased
configured table name, whose `database` field is the configured database
name exactly as passed to the constructor (NOT uppercased, although the
client inserts into the uppercased database), whose `filename` is the
file's basename, and whose `num_rows` equals the number of rows written
for that file. -/
theorem c6_index_log (database name : Str) (rowBytes : TradesRow → Nat)
    (flushAt : Nat → Bool) (nowMs : Nat) (file : BFile)
    (rows : List FileRow) (hlen : rows.length < 2 ^ 32) :
    ∃ stats row logs,
      indexFile (TradesTable.new database name) rowBytes flushAt nowMs file
        (rows.map .ok) = .ok (stats, row, logs) ∧
      row.database = database ∧
      row.table = toAsciiUpper name ∧
      row.filename = basename file.path ∧
      stats.rows = rows.length ∧
      row.num_rows = rows.length ∧
      row.index_dt = nowMs := by
  obtain ⟨st', hrun, hcount, -, -, -, -, -, -, -, -, -, -⟩ :=
    indexLoopSpec file.pair rowBytes flushAt rows
      ⟨2 ^ 32 - 1, 0, 2 ^ 64 - 1, 0, [], ⟨0, 0, 0⟩, 0, 0,
        [(LogLevel.info, "Indexing".toList)]⟩
  simp only [List.length_nil] at hcount
  have hstats : (addQ st'.stats (inserterEnd rowBytes st'.pending)).rows =
      rows.length := by
    simp only [addQ, inserterEnd]
    omega
  refine ⟨addQ st'.stats (inserterEnd rowBytes st'.pending),
    { filename := basename file.path
      start_id := st'.start_id
      end_id := st'.end_id
      start_period_dt := st'.start_dt
      end_period_dt := st'.end_dt
      database := database
      table := toAsciiUpper name
      num_rows := (addQ st'.stats (inserterEnd rowBytes st'.pending)).rows
        % 2 ^ 32
      index_dt := nowMs },
    st'.logs ++ [(LogLevel.info, "Indexed in".toList)],
    ?_, rfl, rfl, rfl, hstats, ?_, rfl⟩
  · unfold indexFile
    rw [hrun]
    exact rfl
  · show (addQ st'.stats (inserterEnd rowBytes st'.pending)).rows % 2 ^ 32 =
      rows.length
    rw [hstats]
    exact Nat.mod_eq_of_lt hlen

/-- **C6** witness: the amended theorem applied to a concrete file and a
one-row stream. -/
theorem c6_index_log_witness :
    ∃ stats row logs,
      indexFile (TradesTable.new "test".toList "t".toList) (fun _ => 0)
        (fun _ => false) 3
        ⟨"P".toList, "k".toList, "kc".toList, "/d/a.zip".toList⟩
        ([⟨1, ⟨"1".toList⟩, ⟨"1".toList⟩, ⟨"1".toList⟩, 9, false, false⟩].map
          .ok) = .ok (stats, row, logs) ∧
      row.database = "test".toList ∧
      row.table = toAsciiUpper "t".toList ∧
      row.filename =
        basename (⟨"P".toList, "k".toList, "kc".toList,
          "/d/a.zip".toList⟩ : BFile).path ∧
      stats.rows =
        [(⟨1, ⟨"1".toList⟩, ⟨"1".toList⟩, ⟨"1".toList⟩, 9, false, false⟩ :
          FileRow)].length ∧
      row.num_rows =
        [(⟨1, ⟨"1".toList⟩, ⟨"1".toList⟩, ⟨"1".toList⟩, 9, false, false⟩ :
          FileRow)].length ∧
      row.index_dt = 3 :=
  c6_index_log "test".toList "t".toList (fun _ => 0) (fun _ => false) 3
    ⟨"P".toList, "k".toList, "kc".toList, "/d/a.zip".toList⟩
    [⟨1, ⟨"1".toList⟩, ⟨"1".toList⟩, ⟨"1".toList⟩, 9, false, false⟩]
    (by decide)

/-- **C9** (corrected), counterexample: on a zero-row stream, `index_file`
emits only its two routine info lines — no warn- or error-level log entry
marks the empty file as an anomaly, contrary to the claim. -/
theorem c9_empty_counterexample :
    indexFile (TradesTable.new "db".toList "t".toList) (fun _ => 0)
      (fun _ => false) 5
      ⟨"P".toList, "k".toList, "kc".toList, "/d/a.zip".toList⟩ [] =
      .ok (⟨0, 0, 0⟩,
        ⟨basename "/d/a.zip".toList, 2 ^ 32 - 1, 0, 2 ^ 64 - 1, 0,
          "db".toList, toAsciiUpper "t".toList, 0, 5⟩,
        [(LogLevel.info, "Indexing".toList),
          (LogLevel.info, "Indexed in".toList)]) ∧
    (∀ e ∈ [(LogLevel.info, "Indexing".toList),
        (LogLevel.info, "Indexed in".toList)],
      e.1 ≠ LogLevel.warn ∧ e.1 ≠ LogLevel.error) := by
  exact ⟨rfl, by decide⟩

/-- **C9** (corrected), amended claim: for a zero-row stream, `index_file`
does not log any anomaly (its log output stays at debug/info level) but
still emits an index-log row with `num_rows = 0` and the minimum counters
left at their sentinels (`start_id = u32::MAX`,
`start_period_dt = u64::MAX`, maxima at 0); for a non-empty stream the
emitted row carries the running minimum and maximum id and time over all
parsed rows. -/
theorem c9_counters (database name : Str) (rowBytes : TradesRow → Nat)
    (flushAt : Nat → Bool) (nowMs : Nat) (file : BFile)
    (rows : List FileRow) :
    (∃ stats row logs,
      indexFile (TradesTable.new database name) rowBytes flushAt nowMs file
        [] = .ok (stats, row, logs) ∧
      row.num_rows = 0 ∧ row.start_id = 2 ^ 32 - 1 ∧
      row.start_period_dt = 2 ^ 64 - 1 ∧ row.end_id = 0 ∧
      row.end_period_dt = 0 ∧
      ∀ e ∈ logs, e.1 ≠ LogLevel.warn ∧ e.1 ≠ LogLevel.error) ∧
    (rows ≠ [] →
     (∀ r ∈ rows, r.id ≤ 2 ^ 32 - 1 ∧ r.time ≤ 2 ^ 64 - 1) →
     ∃ stats row logs,
      indexFile (TradesTable.new database name) rowBytes flushAt nowMs file
        (rows.map .ok) = .ok (stats, row, logs) ∧
      (∀ r ∈ rows, row.start_id ≤ r.id ∧ r.id ≤ row.end_id ∧
        row.start_period_dt ≤ r.time ∧ r.time ≤ row.end_period_dt) ∧
      (∃ r ∈ rows, row.start_id = r.id) ∧
      (∃ r ∈ rows, row.end_id = r.id) ∧
      (∃ r ∈ rows, row.start_period_dt = r.time) ∧
      (∃ r ∈ rows, row.end_period_dt = r.time)) := by
  constructor
  · exact ⟨⟨0, 0, 0⟩,
      ⟨basename file.path, 2 ^ 32 - 1, 0, 2 ^ 64 - 1, 0, database,
        toAsciiUpper name, 0, nowMs⟩,
      [(LogLevel.info, "Indexing".toList),
        (LogLevel.info, "Indexed in".toList)],
      rfl, rfl, rfl, rfl, rfl, rfl, by decide⟩
  · intro hne hbnd
    obtain ⟨st', hrun, hcount, -, -, -, -, hbounds,
      hatt1, hatt2, hatt3, hatt4, -⟩ :=
      indexLoopSpec file.pair rowBytes flushAt rows
        ⟨2 ^ 32 - 1, 0, 2 ^ 64 - 1, 0, [], ⟨0, 0, 0⟩, 0, 0,
          [(LogLevel.info, "Indexing".toList)]⟩
    obtain ⟨r0, hr0⟩ := List.exists_mem_of_ne_nil rows hne
    refine ⟨addQ st'.stats (inserterEnd rowBytes st'.pending),
      { filename := basename file.path
        start_id := st'.start_id
        end_id := st'.end_id
        start_period_dt := st'.start_dt
        end_period_dt := st'.end_dt
        database := database
        table := toAsciiUpper name
        num_rows := (addQ st'.stats (inserterEnd rowBytes st'.pending)).rows
          % 2 ^ 32
        index_dt := nowMs },
      st'.logs ++ [(LogLevel.info, "Indexed in".toList)],
      ?_, hbounds, ?_, ?_, ?_, ?_⟩
    · unfold indexFile
      rw [hrun]
      exact rfl
    · rcases hatt1 with h | h
      · refine ⟨r0, hr0, ?_⟩
        have hb := (hbounds r0 hr0).1
        have hu := (hbnd r0 hr0).1
        have h' : st'.start_id = 2 ^ 32 - 1 := h
        show st'.start_id = r0.id
        omega
      · exact h
    · rcases hatt2 with h | h
      · refine ⟨r0, hr0, ?_⟩
        have hb := (hbounds r0 hr0).2.1
        have h' : st'.end_id = 0 := h
        show st'.end_id = r0.id
        omega
      · exact h
    · rcases hatt3 with h | h
      · refine ⟨r0, hr0, ?_⟩
        have hb := (hbounds r0 hr0).2.2.1
        have hu := (hbnd r0 hr0).2
        have h' : st'.start_dt = 2 ^ 64 - 1 := h
        show st'.start_dt = r0.time
        omega
      · exact h
    · rcases hatt4 with h | h
      · refine ⟨r0, hr0, ?_⟩
        have hb := (hbounds r0 hr0).2.2.2
        have h' : st'.end_dt = 0 := h
        show st'.end_dt = r0.time
        omega
      · exact h

/-- **C9** witness: the amended theorem at a concrete two-row stream. -/
theorem c9_counters_witness :
    ([(⟨4, ⟨"1".toList⟩, ⟨"1".toList⟩, ⟨"1".toList⟩, 9, false, false⟩ :
        FileRow),
      ⟨7, ⟨"2".toList⟩, ⟨"2".toList⟩, ⟨"2".toList⟩, 6, true, false⟩] ≠
        ([] : List FileRow)) ∧
    (∀ r ∈ [(⟨4, ⟨"1".toList⟩, ⟨"1".toList⟩, ⟨"1".toList⟩, 9, false,
        false⟩ : FileRow),
      ⟨7, ⟨"2".toList⟩, ⟨"2".toList⟩, ⟨"2".toList⟩, 6, true, false⟩],
      r.id ≤ 2 ^ 32 - 1 ∧ r.time ≤ 2 ^ 64 - 1) ∧
    (∃ stats row logs,
      indexFile (TradesTable.new "db".toList "t".toList) (fun _ => 1)
        (fun _ => true) 5
        ⟨"P".toList, "k".toList, "kc".toList, "/d/a.zip".toList⟩
        ([(⟨4, ⟨"1".toList⟩, ⟨"1".toList⟩, ⟨"1".toList⟩, 9, false,
            false⟩ : FileRow),
          ⟨7, ⟨"2".toList⟩, ⟨"2".toList⟩, ⟨"2".toList⟩, 6, true,
            false⟩].map .ok) = .ok (stats, row, logs) ∧
      (∀ r ∈ [(⟨4, ⟨"1".toList⟩, ⟨"1".toList⟩, ⟨"1".toList⟩, 9, false,
          false⟩ : FileRow),
        ⟨7, ⟨"2".toList⟩, ⟨"2".toList⟩, ⟨"2".toList⟩, 6, true, false⟩],
        row.start_id ≤ r.id ∧ r.id ≤ row.end_id ∧
        row.start_period_dt ≤ r.time ∧ r.time ≤ row.end_period_dt) ∧
      (∃ r ∈ [(⟨4, ⟨"1".toList⟩, ⟨"1".toList⟩, ⟨"1".toList⟩, 9, false,
          false⟩ : FileRow),
        ⟨7, ⟨"2".toList⟩, ⟨"2".toList⟩, ⟨"2".toList⟩, 6, true, false⟩],
        row.start_id = r.id) ∧
      (∃ r ∈ [(⟨4, ⟨"1".toList⟩, ⟨"1".toList⟩, ⟨"1".toList⟩, 9, false,
          false⟩ : FileRow),
        ⟨7, ⟨"2".toList⟩, ⟨"2".toList⟩, ⟨"2".toList⟩, 6, true, false⟩],
        row.end_id = r.id) ∧
      (∃ r ∈ [(⟨4, ⟨"1".toList⟩, ⟨"1".toList⟩, ⟨"1".toList⟩, 9, false,
          false⟩ : FileRow),
        ⟨7, ⟨"2".toList⟩, ⟨"2".toList⟩, ⟨"2".toList⟩, 6, true, false⟩],
        row.start_period_dt = r.time) ∧
      (∃ r ∈ [(⟨4, ⟨"1".toList⟩, ⟨"1".toList⟩, ⟨"1".toList⟩, 9, false,
          false⟩ : FileRow),
        ⟨7, ⟨"2".toList⟩, ⟨"2".toList⟩, ⟨"2".toList⟩, 6, true, false⟩],
        row.end_period_dt = r.time)) :=
  ⟨by decide, by decide,
    (c9_counters "db".toList "t".toList (fun _ => 1) (fun _ => true) 5
      ⟨"P".toList, "k".toList, "kc".toList, "/d/a.zip".toList⟩
      [⟨4, ⟨"1".toList⟩, ⟨"1".toList⟩, ⟨"1".toList⟩, 9, false, false⟩,
       ⟨7, ⟨"2".toList⟩, ⟨"2".toList⟩, ⟨"2".toList⟩, 6, true, false⟩]).2
      (by decide) (by decide)⟩

end CryptoQuant
